import Mathlib

/-!
Verification of the approval-workflow core of the Expense Management backend
(`src/services/approvalService.ts`): the next-approver resolver
(`getNextApprover`) and the decision processor (`processApprovalDecision`),
shallowly embedded over an explicit relational state (`DB`).

Conventions of the embedding:
* Prisma `Decimal` amounts become `ℚ`.
* Prisma `findUnique` / `findFirst` become `List.find?` on the corresponding
  table; `findMany` with `orderBy: stepNumber asc` becomes `List.insertionSort`
  of the filtered rows; `findMany` without `orderBy` is a plain filter.
* A thrown `AppError` becomes an `Except.error` carrying an `Err` value, one
  constructor per throw site of the source, with the source's HTTP status code
  recoverable through `Err.statusCode`.
* The processor's writes are threaded explicitly: it returns the result
  (or error) together with the database after the call.
* A JavaScript object field that is absent on some return path (the
  `fastTracked` field of the rejection branch) is an `Option` that is `none`
  on that path.
-/

namespace EM

inductive ExpenseStatus where
  | Pending
  | Approved
  | Rejected
deriving DecidableEq

inductive ApprovalRole where
  | Manager
  | Finance
  | Director
deriving DecidableEq

/-- The `decision` argument of `processApprovalDecision`:
the source types it as the string union `'Approved' | 'Rejected'`. -/
inductive Decision where
  | Approved
  | Rejected
deriving DecidableEq

structure User where
  id : String
  name : String
  email : String
deriving DecidableEq

/-- Row of `ManagerAssignment` (unique on `employeeId`). -/
structure ManagerAssignment where
  employeeId : String
  managerId : String
deriving DecidableEq

/-- Row of `ApprovalFlowStep` (unique on `(companyId, stepNumber)`). -/
structure ApprovalFlowStep where
  companyId : String
  stepNumber : Nat
  approverRole : ApprovalRole
  staticApproverId : Option String
deriving DecidableEq

structure Expense where
  id : String
  companyId : String
  employeeId : String
  companyCurrencyAmount : ℚ
  status : ExpenseStatus
deriving DecidableEq

/-- Row of `ExpenseApproval` (unique on `(expenseId, stepNumber)`). -/
structure ExpenseApproval where
  expenseId : String
  stepNumber : Nat
  approverId : String
  approverRole : ApprovalRole
  status : ExpenseStatus
  comments : Option String
deriving DecidableEq

/-- The relational state the two service functions read and write. -/
structure DB where
  expenses : List Expense
  users : List User
  managerAssignments : List ManagerAssignment
  flowSteps : List ApprovalFlowStep
  approvals : List ExpenseApproval
deriving DecidableEq

/-- One constructor per `throw new AppError(...)` site reachable from
`getNextApprover` and `processApprovalDecision`. -/
inductive Err where
  | expenseNotFound
  | noFlowDefined
  | flowStepNotFound (stepNumber : Nat)
  | noManagerAssigned
  | noApproverForStep (stepNumber : Nat)
  | approverUserNotFound
  | noPendingApproval
  | notAuthorized
deriving DecidableEq

/-- The HTTP status code the source attaches to each `AppError`. -/
def Err.statusCode : Err → Nat
  | .expenseNotFound => 404
  | .noFlowDefined => 400
  | .flowStepNotFound _ => 400
  | .noManagerAssigned => 400
  | .noApproverForStep _ => 400
  | .approverUserNotFound => 404
  | .noPendingApproval => 400
  | .notAuthorized => 403

/-- The message string the source attaches to each `AppError`. -/
def Err.message : Err → String
  | .expenseNotFound => "Expense not found"
  | .noFlowDefined => "No approval flow defined for this company"
  | .flowStepNotFound n => "Approval flow step " ++ toString n ++ " not found"
  | .noManagerAssigned => "Employee has no assigned manager"
  | .noApproverForStep n => "No approver found for step " ++ toString n
  | .approverUserNotFound => "Approver user not found"
  | .noPendingApproval => "No pending approval for this expense"
  | .notAuthorized => "You are not authorized to approve this expense at this step"

/-- The error taxonomy of the specification (section 7). -/
inductive ErrKind where
  | notFound
  | configurationError
  | validationError
  | authorizationError
deriving DecidableEq

/-- Modelled from the spec: section 7 classifies each failure of the core into
NotFound (referenced expense/person/step does not exist), ConfigurationError
(flow setup incomplete or inconsistent: zero steps, missing fixed approver,
missing step definition), ValidationError (well-formed but not actionable: no
manager assigned, no pending step to decide), or AuthorizationError (actor
does not match the resolved approver). The source conflates these into bare
HTTP status codes; this function assigns each throw site its spec kind. -/
def Err.kind : Err → ErrKind
  | .expenseNotFound => .notFound
  | .noFlowDefined => .configurationError
  | .flowStepNotFound _ => .configurationError
  | .noManagerAssigned => .validationError
  | .noApproverForStep _ => .configurationError
  | .approverUserNotFound => .notFound
  | .noPendingApproval => .validationError
  | .notAuthorized => .authorizationError

/-- `prisma.expense.findUnique({ where: { id } })`. -/
def findExpense (db : DB) (expenseId : String) : Option Expense :=
  db.expenses.find? (fun e => e.id == expenseId)

/-- `prisma.user.findUnique({ where: { id } })`. -/
def findUser (db : DB) (userId : String) : Option User :=
  db.users.find? (fun u => u.id == userId)

/-- The employee's `employeeAssignment` relation (unique on `employeeId`). -/
def findAssignment (db : DB) (employeeId : String) : Option ManagerAssignment :=
  db.managerAssignments.find? (fun m => m.employeeId == employeeId)

/-- Ordering relation used by the source's `orderBy: { stepNumber: 'asc' }`
on approval records. -/
def approvalLE (a b : ExpenseApproval) : Prop :=
  a.stepNumber ≤ b.stepNumber

instance : DecidableRel approvalLE := fun a b => Nat.decLe a.stepNumber b.stepNumber

/-- Ordering relation used by the source's `orderBy: { stepNumber: 'asc' }`
on flow steps. -/
def flowLE (a b : ApprovalFlowStep) : Prop :=
  a.stepNumber ≤ b.stepNumber

instance : DecidableRel flowLE := fun a b => Nat.decLe a.stepNumber b.stepNumber

/-- The expense's approval records, ordered by `stepNumber` ascending
(the `approvals` include of `getNextApprover` and of the processor's
initial load). -/
def approvalsSorted (db : DB) (expenseId : String) : List ExpenseApproval :=
  List.insertionSort approvalLE (db.approvals.filter (fun a => a.expenseId == expenseId))

/-- `prisma.expenseApproval.findMany({ where: { expenseId } })`
(no `orderBy`; the non-fast-track re-check of the processor). -/
def approvalsOf (db : DB) (expenseId : String) : List ExpenseApproval :=
  db.approvals.filter (fun a => a.expenseId == expenseId)

/-- `prisma.approvalFlowStep.findMany({ where: { companyId }, orderBy: ... })`. -/
def companyFlowSteps (db : DB) (companyId : String) : List ApprovalFlowStep :=
  List.insertionSort flowLE (db.flowSteps.filter (fun s => s.companyId == companyId))

/-- `prisma.approvalFlowStep.findMany({ where: { companyId } })` (no `orderBy`). -/
def companyFlowStepsOf (db : DB) (companyId : String) : List ApprovalFlowStep :=
  db.flowSteps.filter (fun s => s.companyId == companyId)

/-- `prisma.approvalFlowStep.count({ where: { companyId } })`. -/
def countFlowSteps (db : DB) (companyId : String) : Nat :=
  (db.flowSteps.filter (fun s => s.companyId == companyId)).length

/-- The record returned by the resolver on success. -/
structure NextApproverInfo where
  stepNumber : Nat
  approverRole : ApprovalRole
  approverId : String
  approverName : String
  approverEmail : String
deriving DecidableEq

/-- The `for (const approval of expense.approvals)` loop of `getNextApprover`,
with `currentStepNumber` as the accumulator: a Pending record adopts its step
number and breaks; a Rejected record returns null (`none` here); an Approved
record advances the candidate to its step number + 1 and continues; falling
off the end yields the accumulated candidate. -/
def scanApprovals : Nat → List ExpenseApproval → Option Nat
  | currentStepNumber, [] => some currentStepNumber
  | _, a :: rest =>
    match a.status with
    | ExpenseStatus.Pending => some a.stepNumber
    | ExpenseStatus.Rejected => none
    | ExpenseStatus.Approved => scanApprovals (a.stepNumber + 1) rest

/-- The tail of `getNextApprover` after the completed-all-steps check: locate
the flow step with the current step number, resolve the approver identity
(employee's assigned manager for the Manager role, else the step's static
approver), load the approver's user row, and build the result. -/
def resolveApproverAtStep (db : DB) (expense : Expense)
    (flowSteps : List ApprovalFlowStep) (currentStepNumber : Nat) :
    Except Err (Option NextApproverInfo) :=
  match flowSteps.find? (fun s => s.stepNumber == currentStepNumber) with
  | none => .error (.flowStepNotFound currentStepNumber)
  | some currentFlowStep =>
    let approverIdE : Except Err String :=
      if currentFlowStep.approverRole = ApprovalRole.Manager then
        match findAssignment db expense.employeeId with
        | none => .error .noManagerAssigned
        | some assignment => .ok assignment.managerId
      else
        match currentFlowStep.staticApproverId with
        | some staticId => .ok staticId
        | none => .error (.noApproverForStep currentStepNumber)
    match approverIdE with
    | .error e => .error e
    | .ok approverId =>
      match findUser db approverId with
      | none => .error .approverUserNotFound
      | some approver =>
        .ok (some { stepNumber := currentStepNumber
                    approverRole := currentFlowStep.approverRole
                    approverId := approver.id
                    approverName := approver.name
                    approverEmail := approver.email })

/-- `getNextApprover` of `approvalService.ts`: returns the next approver
details, or `none` once no further action is possible, or fails. -/
def getNextApprover (db : DB) (expenseId : String) :
    Except Err (Option NextApproverInfo) :=
  match findExpense db expenseId with
  | none => .error .expenseNotFound
  | some expense =>
    let flowSteps := companyFlowSteps db expense.companyId
    if flowSteps.length = 0 then
      .error .noFlowDefined
    else
      match scanApprovals 1 (approvalsSorted db expenseId) with
      | none => .ok none
      | some currentStepNumber =>
        if flowSteps.length < currentStepNumber then
          .ok none
        else
          resolveApproverAtStep db expense flowSteps currentStepNumber

/-- `prisma.expenseApproval.upsert` on the unique key `(expenseId, stepNumber)`:
update `status`/`comments` of the existing row (its `approverId` and
`approverRole` keep their old values, as in the source's `update` clause), or
insert the full row. Returns the new database and the stored row. -/
def upsertApproval (db : DB) (rec : ExpenseApproval) : DB × ExpenseApproval :=
  match db.approvals.find?
      (fun a => a.expenseId == rec.expenseId && a.stepNumber == rec.stepNumber) with
  | some old =>
    let stored := { old with status := rec.status, comments := rec.comments }
    ({ db with approvals := (db.approvals.map
        (fun a => if a.expenseId == rec.expenseId && a.stepNumber == rec.stepNumber
          then { a with status := rec.status, comments := rec.comments }
          else a)) },
     stored)
  | none =>
    ({ db with approvals := db.approvals ++ [rec] }, rec)

/-- `prisma.expense.update({ where: { id }, data: { status } })`. -/
def setExpenseStatus (db : DB) (expenseId : String) (status : ExpenseStatus) : DB :=
  { db with expenses := (db.expenses.map
      (fun e => if e.id == expenseId then { e with status := status } else e)) }

/-- The object `processApprovalDecision` returns on success. `fastTracked` is
`none` on the rejection path, where the source's returned object literal has
no `fastTracked` field. -/
structure DecisionResult where
  message : String
  approval : ExpenseApproval
  expenseStatus : ExpenseStatus
  fastTracked : Option Bool
deriving DecidableEq

/-- `decision === 'Approved' ? ExpenseStatus.Approved : ExpenseStatus.Rejected`
(the `status` value of the processor's upsert). -/
def decidedStatus : Decision → ExpenseStatus
  | Decision.Approved => ExpenseStatus.Approved
  | Decision.Rejected => ExpenseStatus.Rejected

/-- The row the processor's upsert writes for the resolved step. -/
def newApprovalRec (expenseId approverId : String) (info : NextApproverInfo)
    (decision : Decision) (comments : Option String) : ExpenseApproval :=
  { expenseId := expenseId
    stepNumber := info.stepNumber
    approverId := approverId
    approverRole := info.approverRole
    status := decidedStatus decision
    comments := comments }

/-- The conditional rule of the processor:
`expense.companyCurrencyAmount.toNumber() > THRESHOLD_AMOUNT (= 500) ||
approverRole === ApprovalRole.Finance`. -/
def shouldFastTrack (expense : Expense) (approverRole : ApprovalRole) : Bool :=
  decide (500 < expense.companyCurrencyAmount) ||
  decide (approverRole = ApprovalRole.Finance)

/-- The write phase of `processApprovalDecision` (everything after the
authorization check): upsert the approval record, then either mark the
expense Rejected and return, or run the conditional fast-track /
full-coverage status update. -/
def applyDecision (db : DB) (expense : Expense) (info : NextApproverInfo)
    (expenseId approverId : String) (decision : Decision) (comments : Option String) :
    Except Err DecisionResult × DB :=
  let up := upsertApproval db (newApprovalRec expenseId approverId info decision comments)
  let db1 := up.1
  let approval := up.2
  match decision with
  | Decision.Rejected =>
    (.ok { message := "Expense rejected"
           approval := approval
           expenseStatus := ExpenseStatus.Rejected
           fastTracked := none },
     setExpenseStatus db1 expenseId ExpenseStatus.Rejected)
  | Decision.Approved =>
    if shouldFastTrack expense info.approverRole then
      if countFlowSteps db1 expense.companyId ≤ info.stepNumber then
        (.ok { message := "Approval recorded successfully"
               approval := approval
               expenseStatus := ExpenseStatus.Approved
               fastTracked := some true },
         setExpenseStatus db1 expenseId ExpenseStatus.Approved)
      else
        (.ok { message := "Approval recorded successfully"
               approval := approval
               expenseStatus := expense.status
               fastTracked := some true }, db1)
    else
      let allApprovals := approvalsOf db1 expenseId
      let flowStepsAll := companyFlowStepsOf db1 expense.companyId
      let allApproved : Bool :=
        allApprovals.length == flowStepsAll.length &&
        allApprovals.all (fun a => a.status == ExpenseStatus.Approved)
      if allApproved then
        (.ok { message := "Approval recorded successfully"
               approval := approval
               expenseStatus := ExpenseStatus.Approved
               fastTracked := some false },
         setExpenseStatus db1 expenseId ExpenseStatus.Approved)
      else
        (.ok { message := "Approval recorded successfully"
               approval := approval
               expenseStatus := expense.status
               fastTracked := some false }, db1)

/-- `processApprovalDecision` of `approvalService.ts`, with the database
threaded explicitly: load the expense, resolve the pending step, check the
actor, then run the write phase (`applyDecision`). -/
def processApprovalDecision (db : DB) (expenseId : String) (approverId : String)
    (decision : Decision) (comments : Option String) :
    Except Err DecisionResult × DB :=
  match findExpense db expenseId with
  | none => (.error .expenseNotFound, db)
  | some expense =>
    match getNextApprover db expenseId with
    | .error e => (.error e, db)
    | .ok none => (.error .noPendingApproval, db)
    | .ok (some nextApproverInfo) =>
      if nextApproverInfo.approverId ≠ approverId then
        (.error .notAuthorized, db)
      else
        applyDecision db expense nextApproverInfo expenseId approverId decision comments

deriving instance DecidableEq for Except

/-! ### Reachable states

States of the data store produced by the decision processor alone, starting
from a store whose approval ledger is empty and whose expenses are all
Pending (the state an expense is created in; expense ids are unique, as the
primary key makes them in the source's store). -/

def InitState (db : DB) : Prop :=
  (db.expenses.map Expense.id).Nodup ∧
  db.approvals = [] ∧
  ∀ e ∈ db.expenses, e.status = ExpenseStatus.Pending

inductive Reachable : DB → Prop where
  | init (db : DB) : InitState db → Reachable db
  | step (db db' : DB) (expenseId approverId : String) (decision : Decision)
      (comments : Option String) (r : DecisionResult) :
      Reachable db →
      processApprovalDecision db expenseId approverId decision comments =
        (Except.ok r, db') →
      Reachable db'

/-- The per-expense ledger invariant maintained by the decision processor:
the expense's records occupy consecutive step numbers `1..k` in storage
order, only the last record can be something other than Approved, no record
is Pending, the expense status is Rejected exactly when a Rejected record
exists, an Approved status means full coverage by Approved records, a
non-Pending status implies a configured flow, and the ledger never outgrows
the flow. -/
def ExpenseInv (db : DB) (e : Expense) : Prop :=
  ((approvalsOf db e.id).map (fun a => a.stepNumber) =
     List.range' 1 (approvalsOf db e.id).length) ∧
  (∀ a ∈ (approvalsOf db e.id).dropLast, a.status = ExpenseStatus.Approved) ∧
  (∀ a ∈ approvalsOf db e.id, a.status ≠ ExpenseStatus.Pending) ∧
  (e.status = ExpenseStatus.Rejected ↔
     ∃ a ∈ approvalsOf db e.id, a.status = ExpenseStatus.Rejected) ∧
  (e.status = ExpenseStatus.Approved →
     (approvalsOf db e.id).length = countFlowSteps db e.companyId ∧
     ∀ a ∈ approvalsOf db e.id, a.status = ExpenseStatus.Approved) ∧
  (e.status ≠ ExpenseStatus.Pending → 1 ≤ countFlowSteps db e.companyId) ∧
  (approvalsOf db e.id).length ≤ countFlowSteps db e.companyId

def DBInv (db : DB) : Prop :=
  (db.expenses.map Expense.id).Nodup ∧ ∀ e ∈ db.expenses, ExpenseInv db e

/-! ### Concrete fixture: one organization with a two-step flow
(step 1 dynamic Manager, step 2 Finance with a static approver), an
employee with an assigned manager, and two Pending expenses, one above and
one below the fast-track threshold. -/

def empUser : User := { id := "emp", name := "Employee", email := "emp@x" }

def mgrUser : User := { id := "mgr", name := "Manager", email := "mgr@x" }

def finUser : User := { id := "fin", name := "Finance", email := "fin@x" }

def step1 : ApprovalFlowStep :=
  { companyId := "co", stepNumber := 1, approverRole := ApprovalRole.Manager
    staticApproverId := none }

def step2 : ApprovalFlowStep :=
  { companyId := "co", stepNumber := 2, approverRole := ApprovalRole.Finance
    staticApproverId := some "fin" }

def expense1 : Expense :=
  { id := "e1", companyId := "co", employeeId := "emp"
    companyCurrencyAmount := 850, status := ExpenseStatus.Pending }

def expense2 : Expense :=
  { id := "e2", companyId := "co", employeeId := "emp"
    companyCurrencyAmount := 250, status := ExpenseStatus.Pending }

def db0 : DB :=
  { expenses := [expense1, expense2]
    users := [empUser, mgrUser, finUser]
    managerAssignments := [{ employeeId := "emp", managerId := "mgr" }]
    flowSteps := [step1, step2]
    approvals := [] }

/-- The resolver's answer for a fixture expense with an empty ledger:
step 1, the employee's manager. -/
def infoStep1 : NextApproverInfo :=
  { stepNumber := 1, approverRole := ApprovalRole.Manager, approverId := "mgr"
    approverName := "Manager", approverEmail := "mgr@x" }

/-- Step-1 Approved record as the processor writes it for `expense1`. -/
def apprRecE1 : ExpenseApproval :=
  { expenseId := "e1", stepNumber := 1, approverId := "mgr"
    approverRole := ApprovalRole.Manager, status := ExpenseStatus.Approved
    comments := none }

/-- Step-1 Rejected record as the processor writes it for `expense2`. -/
def rejRecE2 : ExpenseApproval :=
  { expenseId := "e2", stepNumber := 1, approverId := "mgr"
    approverRole := ApprovalRole.Manager, status := ExpenseStatus.Rejected
    comments := none }

/-- `db0` after the manager approves `expense1` at step 1 (fast-track on
amount; not the last step, so the status stays Pending). -/
def db0apprE1 : DB :=
  { db0 with approvals := [apprRecE1] }

def resApprE1 : DecisionResult :=
  { message := "Approval recorded successfully"
    approval := apprRecE1
    expenseStatus := ExpenseStatus.Pending
    fastTracked := some true }

/-- `db0` after the manager rejects `expense2` at step 1. -/
def db0rejE2 : DB :=
  { expenses := [expense1, { expense2 with status := ExpenseStatus.Rejected }]
    users := db0.users
    managerAssignments := db0.managerAssignments
    flowSteps := db0.flowSteps
    approvals := [rejRecE2] }

def resRejE2 : DecisionResult :=
  { message := "Expense rejected"
    approval := rejRecE2
    expenseStatus := ExpenseStatus.Rejected
    fastTracked := none }

/-- A store with a step-1 Pending record ahead of a step-2 Rejected record
on `expense1` (a state the spec's data model admits: a Pending record marks
the currently awaited step). -/
def pendRecE1 : ExpenseApproval :=
  { expenseId := "e1", stepNumber := 1, approverId := "mgr"
    approverRole := ApprovalRole.Manager, status := ExpenseStatus.Pending
    comments := none }

def rejRec2E1 : ExpenseApproval :=
  { expenseId := "e1", stepNumber := 2, approverId := "fin"
    approverRole := ApprovalRole.Finance, status := ExpenseStatus.Rejected
    comments := none }

def dbPendReject : DB :=
  { db0 with approvals := [pendRecE1, rejRec2E1] }

/-- A store where `expense1` was approved at step 1 and rejected at step 2. -/
def dbApprReject : DB :=
  { db0 with approvals := [apprRecE1, rejRec2E1] }

/-- An organization (`co2`) with no configured flow steps, holding one
Pending expense. -/
def expense3 : Expense :=
  { id := "e3", companyId := "co2", employeeId := "emp"
    companyCurrencyAmount := 100, status := ExpenseStatus.Pending }

def dbNoFlow : DB :=
  { expenses := [expense3]
    users := [empUser, mgrUser]
    managerAssignments := [{ employeeId := "emp", managerId := "mgr" }]
    flowSteps := []
    approvals := [] }

/-! ### Basic facts about the lookup helpers -/

theorem findExpense_some (db : DB) (eid : String) (e : Expense)
    (h : findExpense db eid = some e) : e ∈ db.expenses ∧ e.id = eid := by
  refine ⟨List.mem_of_find?_eq_some h, ?_⟩
  have hp := List.find?_some h
  simpa using hp

theorem find?_id_of_nodup (l : List Expense) (e : Expense)
    (hN : (l.map Expense.id).Nodup) (hmem : e ∈ l) :
    l.find? (fun x => x.id == e.id) = some e := by
  induction l with
  | nil => cases hmem
  | cons a t ih =>
    rcases List.mem_cons.mp hmem with h | hmem'
    · subst h
      simp [List.find?_cons]
    · have hne : ¬a.id = e.id := by
        intro hid
        have hmm : e.id ∈ t.map Expense.id := List.mem_map_of_mem _ hmem'
        rw [List.map_cons] at hN
        exact (List.nodup_cons.mp hN).1 (hid ▸ hmm)
      rw [List.find?_cons]
      have hne' : (a.id == e.id) = false := by simpa using hne
      rw [hne']
      exact ih (List.nodup_cons.mp hN).2 hmem'

theorem findExpense_of_mem (db : DB) (e : Expense)
    (hN : (db.expenses.map Expense.id).Nodup) (hmem : e ∈ db.expenses) :
    findExpense db e.id = some e :=
  find?_id_of_nodup db.expenses e hN hmem

/-! ### Facts about the scan of the approval records -/

theorem scanApprovals_all_approved (l : List ExpenseApproval) :
    ∀ (c k : Nat), l.map (fun a => a.stepNumber) = List.range' c k →
    (∀ a ∈ l, a.status = ExpenseStatus.Approved) →
    scanApprovals c l = some (c + k) := by
  induction l with
  | nil =>
    intro c k hmap _
    simp only [List.map_nil] at hmap
    have hk : k = 0 := by
      by_contra hk
      exact (List.range'_ne_nil c).mpr hk hmap.symm
    simp [scanApprovals, hk]
  | cons a t ih =>
    intro c k hmap hall
    cases k with
    | zero => simp at hmap
    | succ k' =>
      rw [List.range'_succ] at hmap
      simp only [List.map_cons, List.cons.injEq] at hmap
      have ha : a.status = ExpenseStatus.Approved := hall a (List.mem_cons_self a t)
      have ht : ∀ x ∈ t, x.status = ExpenseStatus.Approved :=
        fun x hx => hall x (List.mem_cons_of_mem a hx)
      have ihr := ih (c + 1) k' hmap.2 ht
      simp only [scanApprovals, ha]
      rw [hmap.1, ihr]
      congr 1
      omega

theorem scanApprovals_rejected (l₂ : List ExpenseApproval) (r : ExpenseApproval)
    (hr : r.status = ExpenseStatus.Rejected) :
    ∀ (l₁ : List ExpenseApproval), (∀ a ∈ l₁, a.status ≠ ExpenseStatus.Pending) →
    ∀ c, scanApprovals c (l₁ ++ r :: l₂) = none := by
  intro l₁
  induction l₁ with
  | nil =>
    intro _ c
    simp [scanApprovals, hr]
  | cons a t ih =>
    intro hall c
    have ha : a.status ≠ ExpenseStatus.Pending := hall a (List.mem_cons_self a t)
    have ht : ∀ x ∈ t, x.status ≠ ExpenseStatus.Pending :=
      fun x hx => hall x (List.mem_cons_of_mem a hx)
    cases hs : a.status with
    | Pending => exact absurd hs ha
    | Rejected => simp [scanApprovals, hs]
    | Approved => simpa [scanApprovals, hs] using ih ht (a.stepNumber + 1)

theorem scanApprovals_pending (l₂ : List ExpenseApproval) (p : ExpenseApproval)
    (hp : p.status = ExpenseStatus.Pending) :
    ∀ (l₁ : List ExpenseApproval), (∀ a ∈ l₁, a.status = ExpenseStatus.Approved) →
    ∀ c, scanApprovals c (l₁ ++ p :: l₂) = some p.stepNumber := by
  intro l₁
  induction l₁ with
  | nil =>
    intro _ c
    simp [scanApprovals, hp]
  | cons a t ih =>
    intro hall c
    have ha : a.status = ExpenseStatus.Approved := hall a (List.mem_cons_self a t)
    have ht : ∀ x ∈ t, x.status = ExpenseStatus.Approved :=
      fun x hx => hall x (List.mem_cons_of_mem a hx)
    simpa [scanApprovals, ha] using ih ht (a.stepNumber + 1)

/-! ### Sortedness: a ledger whose step numbers are `1..k` in order is
already sorted, so the source's `orderBy` fetch returns it unchanged. -/

theorem sorted_of_map_range' (l : List ExpenseApproval) :
    ∀ (s k : Nat), l.map (fun a => a.stepNumber) = List.range' s k →
    List.Sorted approvalLE l := by
  induction l with
  | nil => intro s k _; exact List.sorted_nil
  | cons a t ih =>
    intro s k hmap
    cases k with
    | zero => simp at hmap
    | succ k' =>
      rw [List.range'_succ] at hmap
      simp only [List.map_cons, List.cons.injEq] at hmap
      refine List.sorted_cons.mpr ⟨?_, ih (s + 1) k' hmap.2⟩
      intro b hb
      have hbmem : b.stepNumber ∈ t.map (fun a => a.stepNumber) :=
        List.mem_map_of_mem _ hb
      rw [hmap.2] at hbmem
      rcases List.mem_range'.mp hbmem with ⟨i, _, hbi⟩
      unfold approvalLE
      omega

theorem approvalsSorted_eq_of_range' (db : DB) (eid : String) (k : Nat)
    (hmap : (approvalsOf db eid).map (fun a => a.stepNumber) = List.range' 1 k) :
    approvalsSorted db eid = approvalsOf db eid :=
  List.Sorted.insertionSort_eq (sorted_of_map_range' (approvalsOf db eid) 1 k hmap)

theorem length_companyFlowSteps (db : DB) (cid : String) :
    (companyFlowSteps db cid).length = countFlowSteps db cid :=
  List.length_insertionSort flowLE _

theorem resolveApproverAtStep_cases (db : DB) (expense : Expense)
    (flowSteps : List ApprovalFlowStep) (c : Nat) :
    (∃ err, resolveApproverAtStep db expense flowSteps c = Except.error err) ∨
    (∃ info, resolveApproverAtStep db expense flowSteps c = Except.ok (some info) ∧
      info.stepNumber = c) := by
  rcases hf : flowSteps.find? (fun s => s.stepNumber == c) with _ | fs
  · exact Or.inl ⟨Err.flowStepNotFound c, by simp [resolveApproverAtStep, hf]⟩
  · by_cases hr : fs.approverRole = ApprovalRole.Manager
    · rcases ha : findAssignment db expense.employeeId with _ | asg
      · exact Or.inl ⟨Err.noManagerAssigned, by simp [resolveApproverAtStep, hf, hr, ha]⟩
      · rcases hu : findUser db asg.managerId with _ | u
        · exact Or.inl ⟨Err.approverUserNotFound,
            by simp [resolveApproverAtStep, hf, hr, ha, hu]⟩
        · exact Or.inr
            ⟨{ stepNumber := c
               approverRole := fs.approverRole
               approverId := u.id
               approverName := u.name
               approverEmail := u.email },
             by simp [resolveApproverAtStep, hf, hr, ha, hu], rfl⟩
    · rcases hs : fs.staticApproverId with _ | sid
      · exact Or.inl ⟨Err.noApproverForStep c, by simp [resolveApproverAtStep, hf, hr, hs]⟩
      · rcases hu : findUser db sid with _ | u
        · exact Or.inl ⟨Err.approverUserNotFound,
            by simp [resolveApproverAtStep, hf, hr, hs, hu]⟩
        · exact Or.inr
            ⟨{ stepNumber := c
               approverRole := fs.approverRole
               approverId := u.id
               approverName := u.name
               approverEmail := u.email },
             by simp [resolveApproverAtStep, hf, hr, hs, hu], rfl⟩

theorem resolveApproverAtStep_ne_ok_none (db : DB) (expense : Expense)
    (flowSteps : List ApprovalFlowStep) (c : Nat) :
    resolveApproverAtStep db expense flowSteps c ≠ Except.ok none := by
  rcases resolveApproverAtStep_cases db expense flowSteps c with ⟨err, h⟩ | ⟨info, h, _⟩ <;>
    rw [h] <;> simp

theorem resolveApproverAtStep_ok_some (db : DB) (expense : Expense)
    (flowSteps : List ApprovalFlowStep) (c : Nat) (info : NextApproverInfo)
    (h : resolveApproverAtStep db expense flowSteps c = Except.ok (some info)) :
    info.stepNumber = c := by
  rcases resolveApproverAtStep_cases db expense flowSteps c with ⟨err, h'⟩ | ⟨info', h', hstep⟩
  · rw [h'] at h; cases h
  · rw [h'] at h
    simp only [Except.ok.injEq, Option.some.injEq] at h
    rw [← h]
    exact hstep

theorem getNextApprover_ok_some (db : DB) (eid : String) (info : NextApproverInfo)
    (h : getNextApprover db eid = Except.ok (some info)) :
    ∃ e, findExpense db eid = some e ∧
      (companyFlowSteps db e.companyId).length ≠ 0 ∧
      scanApprovals 1 (approvalsSorted db eid) = some info.stepNumber ∧
      info.stepNumber ≤ (companyFlowSteps db e.companyId).length ∧
      resolveApproverAtStep db e (companyFlowSteps db e.companyId) info.stepNumber =
        Except.ok (some info) := by
  unfold getNextApprover at h
  rcases hfe : findExpense db eid with _ | e <;> rw [hfe] at h
  · simp at h
  · dsimp only at h
    refine ⟨e, rfl, ?_⟩
    by_cases h0 : (companyFlowSteps db e.companyId).length = 0
    · rw [if_pos h0] at h
      simp at h
    · rw [if_neg h0] at h
      rcases hs : scanApprovals 1 (approvalsSorted db eid) with _ | c <;>
        rw [hs] at h <;> dsimp only at h
      · simp at h
      · by_cases hlt : (companyFlowSteps db e.companyId).length < c
        · rw [if_pos hlt] at h
          simp at h
        · rw [if_neg hlt] at h
          have hstep := resolveApproverAtStep_ok_some db e _ c info h
          subst hstep
          exact ⟨h0, rfl, Nat.le_of_not_lt hlt, h⟩

theorem getNextApprover_ok_none_char (db : DB) (eid : String) (e : Expense)
    (hfe : findExpense db eid = some e)
    (h0 : (companyFlowSteps db e.companyId).length ≠ 0) :
    (getNextApprover db eid = Except.ok none ↔
      (scanApprovals 1 (approvalsSorted db eid) = none ∨
       ∃ c, scanApprovals 1 (approvalsSorted db eid) = some c ∧
         (companyFlowSteps db e.companyId).length < c)) := by
  unfold getNextApprover
  rw [hfe]
  dsimp only
  rw [if_neg h0]
  rcases hs : scanApprovals 1 (approvalsSorted db eid) with _ | c
  · simp
  · dsimp only
    by_cases hlt : (companyFlowSteps db e.companyId).length < c
    · rw [if_pos hlt]
      simp [hlt]
    · rw [if_neg hlt]
      constructor
      · intro hres
        exact absurd hres (resolveApproverAtStep_ne_ok_none db e _ c)
      · intro hcase
        rcases hcase with hnone | ⟨c', hc', hlt'⟩
        · cases hnone
        · rw [Option.some.injEq] at hc'
          subst hc'
          exact absurd hlt' hlt

theorem process_eq_applyDecision (db : DB) (eid aid : String) (d : Decision)
    (c : Option String) (e : Expense) (info : NextApproverInfo)
    (hfe : findExpense db eid = some e)
    (hga : getNextApprover db eid = Except.ok (some info))
    (hauth : info.approverId = aid) :
    processApprovalDecision db eid aid d c = applyDecision db e info eid aid d c := by
  unfold processApprovalDecision
  rw [hfe]
  dsimp only
  rw [hga]
  dsimp only
  rw [if_neg (fun hne => hne hauth)]

theorem applyDecision_ne_error (db : DB) (e : Expense) (info : NextApproverInfo)
    (eid aid : String) (d : Decision) (c : Option String) (err : Err) :
    (applyDecision db e info eid aid d c).1 ≠ Except.error err := by
  unfold applyDecision
  cases d <;> dsimp only
  · split
    · split <;> simp
    · split <;> simp
  · simp

theorem process_error_char (db : DB) (eid aid : String) (d : Decision)
    (c : Option String) (err : Err)
    (h : (processApprovalDecision db eid aid d c).1 = Except.error err) :
    processApprovalDecision db eid aid d c = (Except.error err, db) ∧
    ((err = Err.expenseNotFound ∧ findExpense db eid = none) ∨
     getNextApprover db eid = Except.error err ∨
     (err = Err.noPendingApproval ∧ getNextApprover db eid = Except.ok none) ∨
     (err = Err.notAuthorized ∧
       ∃ info, getNextApprover db eid = Except.ok (some info) ∧ info.approverId ≠ aid)) := by
  unfold processApprovalDecision at h ⊢
  rcases hfe : findExpense db eid with _ | e <;> rw [hfe] at h <;> dsimp only at h ⊢
  · simp only [Except.error.injEq] at h
    subst h
    exact ⟨rfl, Or.inl ⟨rfl, rfl⟩⟩
  · rcases hga : getNextApprover db eid with e' | val <;> rw [hga] at h <;> (try dsimp only at h ⊢)
    · simp only [Except.error.injEq] at h
      subst h
      exact ⟨rfl, Or.inr (Or.inl rfl)⟩
    · rcases val with _ | info <;> dsimp only at h ⊢
      · simp only [Except.error.injEq] at h
        subst h
        exact ⟨rfl, Or.inr (Or.inr (Or.inl ⟨rfl, rfl⟩))⟩
      · by_cases hne : info.approverId ≠ aid
        · rw [if_pos hne] at h ⊢
          simp only [Except.error.injEq] at h
          subst h
          exact ⟨rfl, Or.inr (Or.inr (Or.inr ⟨rfl, info, rfl, hne⟩))⟩
        · rw [if_neg hne] at h
          exact absurd h (applyDecision_ne_error db e info eid aid d c err)

theorem process_ok_inv (db db' : DB) (eid aid : String) (d : Decision)
    (c : Option String) (r : DecisionResult)
    (h : processApprovalDecision db eid aid d c = (Except.ok r, db')) :
    ∃ e info, findExpense db eid = some e ∧
      getNextApprover db eid = Except.ok (some info) ∧ info.approverId = aid ∧
      applyDecision db e info eid aid d c = (Except.ok r, db') := by
  unfold processApprovalDecision at h
  rcases hfe : findExpense db eid with _ | e <;> rw [hfe] at h <;> dsimp only at h
  · simp at h
  · rcases hga : getNextApprover db eid with e' | val <;> rw [hga] at h <;>
      (try dsimp only at h)
    · simp at h
    · rcases val with _ | info <;> dsimp only at h
      · simp at h
      · by_cases hne : info.approverId ≠ aid
        · rw [if_pos hne] at h
          simp at h
        · rw [if_neg hne] at h
          exact ⟨e, info, rfl, rfl, Decidable.not_not.mp hne, h⟩

theorem upsertApproval_expenses (db : DB) (rec : ExpenseApproval) :
    (upsertApproval db rec).1.expenses = db.expenses := by
  unfold upsertApproval
  split <;> rfl

theorem upsertApproval_flowSteps (db : DB) (rec : ExpenseApproval) :
    (upsertApproval db rec).1.flowSteps = db.flowSteps := by
  unfold upsertApproval
  split <;> rfl

theorem countFlowSteps_upsert (db : DB) (rec : ExpenseApproval) (cid : String) :
    countFlowSteps (upsertApproval db rec).1 cid = countFlowSteps db cid := by
  unfold countFlowSteps
  rw [upsertApproval_flowSteps]

theorem setExpenseStatus_approvals (db : DB) (eid : String) (st : ExpenseStatus) :
    (setExpenseStatus db eid st).approvals = db.approvals := rfl

theorem upsertApproval_create (db : DB) (rec : ExpenseApproval)
    (hfresh : ∀ a ∈ db.approvals,
      ¬(a.expenseId = rec.expenseId ∧ a.stepNumber = rec.stepNumber)) :
    upsertApproval db rec = ({ db with approvals := db.approvals ++ [rec] }, rec) := by
  unfold upsertApproval
  have hnone : db.approvals.find?
      (fun a => a.expenseId == rec.expenseId && a.stepNumber == rec.stepNumber) = none := by
    rw [List.find?_eq_none]
    intro a ha
    have := hfresh a ha
    simp only [Bool.and_eq_true, beq_iff_eq]
    intro hcon
    exact this ⟨hcon.1, hcon.2⟩
  rw [hnone]

theorem upsertApproval_stored_mem (db : DB) (rec : ExpenseApproval) :
    (upsertApproval db rec).2 ∈ (upsertApproval db rec).1.approvals := by
  unfold upsertApproval
  rcases hf : db.approvals.find?
      (fun a => a.expenseId == rec.expenseId && a.stepNumber == rec.stepNumber) with _ | old
  · rw [hf]
    simp
  · rw [hf]
    dsimp only
    have hmem := List.mem_of_find?_eq_some hf
    have hp := List.find?_some hf
    refine List.mem_map.mpr ⟨old, hmem, ?_⟩
    rw [if_pos hp]

theorem find?_set_status (l : List Expense) (eid : String) (st : ExpenseStatus) (e : Expense)
    (hfe : l.find? (fun x => x.id == eid) = some e) :
    (l.map (fun x => if x.id == eid then { x with status := st } else x)).find?
      (fun x => x.id == eid) = some { e with status := st } := by
  induction l with
  | nil => simp at hfe
  | cons a t ih =>
    rw [List.find?_cons] at hfe
    rw [List.map_cons, List.find?_cons]
    rcases hb : (a.id == eid) with _ | _ <;> rw [hb] at hfe <;> dsimp only at hfe
    · have h0 : ((if (false : Bool) = true then { a with status := st } else a) : Expense) = a := by
        simp
      rw [h0, hb]
      exact ih hfe
    · have h1 : ((if (true : Bool) = true then { a with status := st } else a) : Expense) =
          { a with status := st } := by
        simp
      rw [h1]
      have hb' : (({ a with status := st } : Expense).id == eid) = true := hb
      rw [hb']
      cases hfe
      rfl

theorem findExpense_setExpenseStatus (db : DB) (eid : String) (st : ExpenseStatus)
    (e : Expense) (hfe : findExpense db eid = some e) :
    findExpense (setExpenseStatus db eid st) eid = some { e with status := st } :=
  find?_set_status db.expenses eid st e hfe

theorem companyFlowStepsOf_upsert (db : DB) (rec : ExpenseApproval) (cid : String) :
    companyFlowStepsOf (upsertApproval db rec).1 cid = companyFlowStepsOf db cid := by
  unfold companyFlowStepsOf
  rw [upsertApproval_flowSteps]

theorem length_companyFlowStepsOf (db : DB) (cid : String) :
    (companyFlowStepsOf db cid).length = countFlowSteps db cid := rfl

theorem applyDecision_rejected_eq (db : DB) (e : Expense) (info : NextApproverInfo)
    (eid aid : String) (c : Option String) :
    applyDecision db e info eid aid Decision.Rejected c =
      (Except.ok { message := "Expense rejected"
                   approval := (upsertApproval db (newApprovalRec eid aid info Decision.Rejected c)).2
                   expenseStatus := ExpenseStatus.Rejected
                   fastTracked := none },
       setExpenseStatus (upsertApproval db (newApprovalRec eid aid info Decision.Rejected c)).1
         eid ExpenseStatus.Rejected) := rfl

theorem applyDecision_ft_last (db : DB) (e : Expense) (info : NextApproverInfo)
    (eid aid : String) (c : Option String)
    (hft : shouldFastTrack e info.approverRole = true)
    (hlast : countFlowSteps db e.companyId ≤ info.stepNumber) :
    applyDecision db e info eid aid Decision.Approved c =
      (Except.ok { message := "Approval recorded successfully"
                   approval := (upsertApproval db (newApprovalRec eid aid info Decision.Approved c)).2
                   expenseStatus := ExpenseStatus.Approved
                   fastTracked := some true },
       setExpenseStatus (upsertApproval db (newApprovalRec eid aid info Decision.Approved c)).1
         eid ExpenseStatus.Approved) := by
  unfold applyDecision
  dsimp only
  rw [countFlowSteps_upsert]
  rw [if_pos hft, if_pos hlast]

theorem applyDecision_ft_mid (db : DB) (e : Expense) (info : NextApproverInfo)
    (eid aid : String) (c : Option String)
    (hft : shouldFastTrack e info.approverRole = true)
    (hmid : ¬countFlowSteps db e.companyId ≤ info.stepNumber) :
    applyDecision db e info eid aid Decision.Approved c =
      (Except.ok { message := "Approval recorded successfully"
                   approval := (upsertApproval db (newApprovalRec eid aid info Decision.Approved c)).2
                   expenseStatus := e.status
                   fastTracked := some true },
       (upsertApproval db (newApprovalRec eid aid info Decision.Approved c)).1) := by
  unfold applyDecision
  dsimp only
  rw [countFlowSteps_upsert]
  rw [if_pos hft, if_neg hmid]

theorem applyDecision_slow_all (db : DB) (e : Expense) (info : NextApproverInfo)
    (eid aid : String) (c : Option String)
    (hft : shouldFastTrack e info.approverRole = false)
    (hall : ((approvalsOf (upsertApproval db (newApprovalRec eid aid info Decision.Approved c)).1 eid).length ==
        countFlowSteps db e.companyId &&
      (approvalsOf (upsertApproval db (newApprovalRec eid aid info Decision.Approved c)).1 eid).all
        (fun a => a.status == ExpenseStatus.Approved)) = true) :
    applyDecision db e info eid aid Decision.Approved c =
      (Except.ok { message := "Approval recorded successfully"
                   approval := (upsertApproval db (newApprovalRec eid aid info Decision.Approved c)).2
                   expenseStatus := ExpenseStatus.Approved
                   fastTracked := some false },
       setExpenseStatus (upsertApproval db (newApprovalRec eid aid info Decision.Approved c)).1
         eid ExpenseStatus.Approved) := by
  unfold applyDecision
  dsimp only
  rw [if_neg (by rw [hft]; exact Bool.false_ne_true)]
  rw [companyFlowStepsOf_upsert, length_companyFlowStepsOf] at *
  rw [if_pos hall]

theorem applyDecision_slow_not_all (db : DB) (e : Expense) (info : NextApproverInfo)
    (eid aid : String) (c : Option String)
    (hft : shouldFastTrack e info.approverRole = false)
    (hall : ((approvalsOf (upsertApproval db (newApprovalRec eid aid info Decision.Approved c)).1 eid).length ==
        countFlowSteps db e.companyId &&
      (approvalsOf (upsertApproval db (newApprovalRec eid aid info Decision.Approved c)).1 eid).all
        (fun a => a.status == ExpenseStatus.Approved)) = false) :
    applyDecision db e info eid aid Decision.Approved c =
      (Except.ok { message := "Approval recorded successfully"
                   approval := (upsertApproval db (newApprovalRec eid aid info Decision.Approved c)).2
                   expenseStatus := e.status
                   fastTracked := some false },
       (upsertApproval db (newApprovalRec eid aid info Decision.Approved c)).1) := by
  unfold applyDecision
  dsimp only
  rw [if_neg (by rw [hft]; exact Bool.false_ne_true)]
  rw [companyFlowStepsOf_upsert, length_companyFlowStepsOf] at *
  rw [if_neg (by rw [hall]; exact Bool.false_ne_true)]

theorem process_ok_approved_shape (db db' : DB) (eid aid : String)
    (c : Option String) (r : DecisionResult)
    (h : processApprovalDecision db eid aid Decision.Approved c = (Except.ok r, db')) :
    ∃ e info up allApproved,
      up = upsertApproval db (newApprovalRec eid aid info Decision.Approved c) ∧
      allApproved = ((approvalsOf up.1 eid).length == countFlowSteps db e.companyId &&
        (approvalsOf up.1 eid).all (fun a => a.status == ExpenseStatus.Approved)) ∧
      findExpense db eid = some e ∧
      getNextApprover db eid = Except.ok (some info) ∧
      info.approverId = aid ∧
      r.approval = up.2 ∧
      r.fastTracked = some (shouldFastTrack e info.approverRole) ∧
      ((r.expenseStatus = ExpenseStatus.Approved ∧
        db' = setExpenseStatus up.1 eid ExpenseStatus.Approved ∧
        ((shouldFastTrack e info.approverRole = true ∧
           countFlowSteps db e.companyId ≤ info.stepNumber) ∨
         (shouldFastTrack e info.approverRole = false ∧ allApproved = true))) ∨
       (r.expenseStatus = e.status ∧ db' = up.1 ∧
        ((shouldFastTrack e info.approverRole = true ∧
           ¬countFlowSteps db e.companyId ≤ info.stepNumber) ∨
         (shouldFastTrack e info.approverRole = false ∧ allApproved = false)))) := by
  obtain ⟨e, info, hfe, hga, hauth, happ⟩ :=
    process_ok_inv db db' eid aid Decision.Approved c r h
  refine ⟨e, info, upsertApproval db (newApprovalRec eid aid info Decision.Approved c),
    _, rfl, rfl, hfe, hga, hauth, ?_⟩
  rcases hft : shouldFastTrack e info.approverRole with _ | _
  · rcases hall : ((approvalsOf (upsertApproval db
        (newApprovalRec eid aid info Decision.Approved c)).1 eid).length ==
          countFlowSteps db e.companyId &&
        (approvalsOf (upsertApproval db
          (newApprovalRec eid aid info Decision.Approved c)).1 eid).all
          (fun a => a.status == ExpenseStatus.Approved)) with _ | _
    · rw [applyDecision_slow_not_all db e info eid aid c hft hall] at happ
      rw [Prod.mk.injEq, Except.ok.injEq] at happ
      obtain ⟨hr, hdb⟩ := happ
      subst hr
      subst hdb
      exact ⟨rfl, rfl, Or.inr ⟨rfl, rfl, Or.inr ⟨rfl, rfl⟩⟩⟩
    · rw [applyDecision_slow_all db e info eid aid c hft hall] at happ
      rw [Prod.mk.injEq, Except.ok.injEq] at happ
      obtain ⟨hr, hdb⟩ := happ
      subst hr
      subst hdb
      exact ⟨rfl, rfl, Or.inl ⟨rfl, rfl, Or.inr ⟨rfl, rfl⟩⟩⟩
  · by_cases hlast : countFlowSteps db e.companyId ≤ info.stepNumber
    · rw [applyDecision_ft_last db e info eid aid c hft hlast] at happ
      rw [Prod.mk.injEq, Except.ok.injEq] at happ
      obtain ⟨hr, hdb⟩ := happ
      subst hr
      subst hdb
      exact ⟨rfl, rfl, Or.inl ⟨rfl, rfl, Or.inl ⟨rfl, hlast⟩⟩⟩
    · rw [applyDecision_ft_mid db e info eid aid c hft hlast] at happ
      rw [Prod.mk.injEq, Except.ok.injEq] at happ
      obtain ⟨hr, hdb⟩ := happ
      subst hr
      subst hdb
      exact ⟨rfl, rfl, Or.inr ⟨rfl, rfl, Or.inl ⟨rfl, hlast⟩⟩⟩

theorem process_ok_rejected_shape (db db' : DB) (eid aid : String)
    (c : Option String) (r : DecisionResult)
    (h : processApprovalDecision db eid aid Decision.Rejected c = (Except.ok r, db')) :
    ∃ e info up,
      up = upsertApproval db (newApprovalRec eid aid info Decision.Rejected c) ∧
      findExpense db eid = some e ∧
      getNextApprover db eid = Except.ok (some info) ∧
      info.approverId = aid ∧
      r.approval = up.2 ∧
      r.fastTracked = none ∧
      r.expenseStatus = ExpenseStatus.Rejected ∧
      db' = setExpenseStatus up.1 eid ExpenseStatus.Rejected := by
  obtain ⟨e, info, hfe, hga, hauth, happ⟩ :=
    process_ok_inv db db' eid aid Decision.Rejected c r h
  rw [applyDecision_rejected_eq db e info eid aid c] at happ
  rw [Prod.mk.injEq, Except.ok.injEq] at happ
  obtain ⟨hr, hdb⟩ := happ
  subst hr
  subst hdb
  exact ⟨e, info, _, rfl, hfe, hga, hauth, rfl, rfl, rfl, rfl⟩

/-- C6: whenever recordDecision (processApprovalDecision) fails — missing
expense, any error propagated from the resolver, no pending step, or actor
mismatch — no write has occurred: the call returns the error together with
the database exactly as it was before the call. -/
theorem C6_failure_no_writes (db : DB) (eid aid : String) (d : Decision)
    (c : Option String) (err : Err)
    (h : (processApprovalDecision db eid aid d c).1 = Except.error err) :
    processApprovalDecision db eid aid d c = (Except.error err, db) :=
  (process_error_char db eid aid d c err h).1

theorem C6_witness :
    (processApprovalDecision db0 "nope" "mgr" Decision.Approved none).1 =
      Except.error Err.expenseNotFound ∧
    processApprovalDecision db0 "nope" "mgr" Decision.Approved none =
      (Except.error Err.expenseNotFound, db0) :=
  ⟨by decide, C6_failure_no_writes db0 "nope" "mgr" Decision.Approved none
    Err.expenseNotFound (by decide)⟩

/-- C8 counterexample: a recordDecision call on an expense of an organization
with zero configured flow steps surfaces the resolver's zero-steps failure,
which the specification's taxonomy classifies as a ConfigurationError — so
recordDecision is not limited to NotFound / ValidationError /
AuthorizationError. -/
theorem C8_counterexample :
    (processApprovalDecision dbNoFlow "e3" "mgr" Decision.Approved none).1 =
      Except.error Err.noFlowDefined ∧
    Err.kind Err.noFlowDefined = ErrKind.configurationError :=
  ⟨by decide, rfl⟩

/-- C8 amended: every failure of recordDecision is NotFound, ValidationError
or AuthorizationError, except that a ConfigurationError can also surface —
propagated unchanged from the resolver invocation. -/
theorem C8_error_kinds (db : DB) (eid aid : String) (d : Decision)
    (c : Option String) (err : Err)
    (h : (processApprovalDecision db eid aid d c).1 = Except.error err) :
    (Err.kind err = ErrKind.notFound ∨ Err.kind err = ErrKind.validationError ∨
      Err.kind err = ErrKind.authorizationError) ∨
    (Err.kind err = ErrKind.configurationError ∧
      getNextApprover db eid = Except.error err) := by
  rcases (process_error_char db eid aid d c err h).2 with ⟨he, _⟩ | hga | ⟨he, _⟩ | ⟨he, _⟩
  · subst he
    exact Or.inl (Or.inl rfl)
  · cases err with
    | expenseNotFound => exact Or.inl (Or.inl rfl)
    | noFlowDefined => exact Or.inr ⟨rfl, hga⟩
    | flowStepNotFound n => exact Or.inr ⟨rfl, hga⟩
    | noManagerAssigned => exact Or.inl (Or.inr (Or.inl rfl))
    | noApproverForStep n => exact Or.inr ⟨rfl, hga⟩
    | approverUserNotFound => exact Or.inl (Or.inl rfl)
    | noPendingApproval => exact Or.inl (Or.inr (Or.inl rfl))
    | notAuthorized => exact Or.inl (Or.inr (Or.inr rfl))
  · subst he
    exact Or.inl (Or.inr (Or.inl rfl))
  · subst he
    exact Or.inl (Or.inr (Or.inr rfl))

theorem C8_witness :
    (processApprovalDecision dbNoFlow "e3" "mgr" Decision.Approved none).1 =
      Except.error Err.noFlowDefined ∧
    ((Err.kind Err.noFlowDefined = ErrKind.notFound ∨
      Err.kind Err.noFlowDefined = ErrKind.validationError ∨
      Err.kind Err.noFlowDefined = ErrKind.authorizationError) ∨
     (Err.kind Err.noFlowDefined = ErrKind.configurationError ∧
      getNextApprover dbNoFlow "e3" = Except.error Err.noFlowDefined)) :=
  ⟨by decide, C8_error_kinds dbNoFlow "e3" "mgr" Decision.Approved none
    Err.noFlowDefined (by decide)⟩

/-- C5: on an expense with a pending step, recordDecision fails with
AuthorizationError exactly when the submitted actor identifier differs from
the approver identifier the resolver returned — a strict identity
comparison. -/
theorem C5_authorization (db : DB) (eid aid : String) (d : Decision)
    (c : Option String) (e : Expense) (info : NextApproverInfo)
    (hfe : findExpense db eid = some e)
    (hga : getNextApprover db eid = Except.ok (some info)) :
    ((processApprovalDecision db eid aid d c).1 = Except.error Err.notAuthorized ↔
      info.approverId ≠ aid) ∧
    Err.kind Err.notAuthorized = ErrKind.authorizationError := by
  refine ⟨⟨?_, ?_⟩, rfl⟩
  · intro h
    rcases (process_error_char db eid aid d c Err.notAuthorized h).2 with
      ⟨he, _⟩ | hga' | ⟨he, _⟩ | ⟨_, info', hga', hne⟩
    · cases he
    · rw [hga] at hga'
      cases hga'
    · cases he
    · rw [hga] at hga'
      rw [Except.ok.injEq, Option.some.injEq] at hga'
      subst hga'
      exact hne
  · intro hne
    unfold processApprovalDecision
    rw [hfe]
    dsimp only
    rw [hga]
    dsimp only
    rw [if_pos hne]

theorem C5_witness :
    findExpense db0 "e1" = some expense1 ∧
    getNextApprover db0 "e1" = Except.ok (some infoStep1) ∧
    (((processApprovalDecision db0 "e1" "emp" Decision.Approved none).1 =
        Except.error Err.notAuthorized) ↔ infoStep1.approverId ≠ "emp") ∧
    Err.kind Err.notAuthorized = ErrKind.authorizationError :=
  ⟨by decide, by decide,
   (C5_authorization db0 "e1" "emp" Decision.Approved none expense1 infoStep1
     (by decide) (by decide)).1,
   (C5_authorization db0 "e1" "emp" Decision.Approved none expense1 infoStep1
     (by decide) (by decide)).2⟩

/-- C3: for every successful Approved decision, the returned fastTracked flag
is true exactly when the organization-currency amount strictly exceeds 500 or
the decided step's resolved role is Finance (and false exactly otherwise) —
it depends on nothing else; a successful Rejected decision carries no
fastTracked boolean at all (the source's rejection branch omits the field). -/
theorem C3_fast_track_flag :
    (∀ (db db' : DB) (eid aid : String) (c : Option String) (r : DecisionResult),
      processApprovalDecision db eid aid Decision.Approved c = (Except.ok r, db') →
      ∃ e info, findExpense db eid = some e ∧
        getNextApprover db eid = Except.ok (some info) ∧
        (r.fastTracked = some true ↔
          (500 < e.companyCurrencyAmount ∨ info.approverRole = ApprovalRole.Finance)) ∧
        (r.fastTracked = some false ↔
          ¬(500 < e.companyCurrencyAmount ∨ info.approverRole = ApprovalRole.Finance))) ∧
    (∀ (db db' : DB) (eid aid : String) (c : Option String) (r : DecisionResult),
      processApprovalDecision db eid aid Decision.Rejected c = (Except.ok r, db') →
      r.fastTracked = none) := by
  constructor
  · intro db db' eid aid c r h
    obtain ⟨e, info, up, allA, hup, hallA, hfe, hga, hauth, happr, hflag, hcases⟩ :=
      process_ok_approved_shape db db' eid aid c r h
    refine ⟨e, info, hfe, hga, ?_, ?_⟩
    · rw [hflag]
      simp [shouldFastTrack]
    · rw [hflag]
      simp [shouldFastTrack, not_or]
  · intro db db' eid aid c r h
    obtain ⟨e, info, up, hup, hfe, hga, hauth, happr, hflag, hst, hdb⟩ :=
      process_ok_rejected_shape db db' eid aid c r h
    exact hflag

theorem C3_witness :
    (∃ e info, findExpense db0 "e1" = some e ∧
      getNextApprover db0 "e1" = Except.ok (some info) ∧
      (resApprE1.fastTracked = some true ↔
        (500 < e.companyCurrencyAmount ∨ info.approverRole = ApprovalRole.Finance)) ∧
      (resApprE1.fastTracked = some false ↔
        ¬(500 < e.companyCurrencyAmount ∨ info.approverRole = ApprovalRole.Finance))) ∧
    resRejE2.fastTracked = none :=
  ⟨C3_fast_track_flag.1 db0 db0apprE1 "e1" "mgr" none resApprE1 (by decide),
   C3_fast_track_flag.2 db0 db0rejE2 "e2" "mgr" none resRejE2 (by decide)⟩

/-- C9 counterexample: a successful Rejected decision returns a result whose
`fastTracked` field is absent (`none`), so not every successful call returns
a boolean fastTracked flag. -/
theorem C9_counterexample :
    (processApprovalDecision db0 "e2" "mgr" Decision.Rejected none).1 =
      Except.ok resRejE2 ∧
    resRejE2.fastTracked = none :=
  ⟨by decide, rfl⟩

/-- C9 amended: every successful recordDecision call returns the persisted
approval record (a row of the resulting ledger) and the expense's resulting
stored status; the boolean fastTracked flag is returned only when the
decision is Approved — a successful Rejected call returns status Rejected
and omits the flag. -/
theorem C9_result_shape (db db' : DB) (eid aid : String) (d : Decision)
    (c : Option String) (r : DecisionResult)
    (h : processApprovalDecision db eid aid d c = (Except.ok r, db')) :
    r.approval ∈ db'.approvals ∧
    (findExpense db' eid).map Expense.status = some r.expenseStatus ∧
    (d = Decision.Approved → ∃ b, r.fastTracked = some b) ∧
    (d = Decision.Rejected →
      r.fastTracked = none ∧ r.expenseStatus = ExpenseStatus.Rejected) := by
  cases d
  · obtain ⟨e, info, up, allA, hup, hallA, hfe, hga, hauth, happr, hflag, hcases⟩ :=
      process_ok_approved_shape db db' eid aid c r h
    subst hup
    have hmem := upsertApproval_stored_mem db (newApprovalRec eid aid info Decision.Approved c)
    have hfe1 : findExpense
        (upsertApproval db (newApprovalRec eid aid info Decision.Approved c)).1 eid =
        some e := by
      unfold findExpense
      rw [upsertApproval_expenses]
      exact hfe
    rcases hcases with ⟨hst, hdb, _⟩ | ⟨hst, hdb, _⟩ <;> subst hdb
    · refine ⟨?_, ?_, ?_, ?_⟩
      · rw [setExpenseStatus_approvals, happr]
        exact hmem
      · rw [findExpense_setExpenseStatus _ _ _ e hfe1]
        simp [hst]
      · exact fun _ => ⟨_, hflag⟩
      · intro hc
        cases hc
    · refine ⟨?_, ?_, ?_, ?_⟩
      · rw [happr]
        exact hmem
      · rw [hfe1]
        simp [hst]
      · exact fun _ => ⟨_, hflag⟩
      · intro hc
        cases hc
  · obtain ⟨e, info, up, hup, hfe, hga, hauth, happr, hflag, hst, hdb⟩ :=
      process_ok_rejected_shape db db' eid aid c r h
    subst hup
    subst hdb
    have hmem := upsertApproval_stored_mem db (newApprovalRec eid aid info Decision.Rejected c)
    have hfe1 : findExpense
        (upsertApproval db (newApprovalRec eid aid info Decision.Rejected c)).1 eid =
        some e := by
      unfold findExpense
      rw [upsertApproval_expenses]
      exact hfe
    refine ⟨?_, ?_, ?_, ?_⟩
    · rw [setExpenseStatus_approvals, happr]
      exact hmem
    · rw [findExpense_setExpenseStatus _ _ _ e hfe1]
      simp [hst]
    · intro hc
      cases hc
    · exact fun _ => ⟨hflag, hst⟩

theorem C9_witness :
    processApprovalDecision db0 "e2" "mgr" Decision.Rejected none =
      (Except.ok resRejE2, db0rejE2) ∧
    (resRejE2.approval ∈ db0rejE2.approvals ∧
     (findExpense db0rejE2 "e2").map Expense.status = some resRejE2.expenseStatus ∧
     (Decision.Rejected = Decision.Approved → ∃ b, resRejE2.fastTracked = some b) ∧
     (Decision.Rejected = Decision.Rejected →
       resRejE2.fastTracked = none ∧ resRejE2.expenseStatus = ExpenseStatus.Rejected)) :=
  ⟨by decide, C9_result_shape db0 db0rejE2 "e2" "mgr" Decision.Rejected none resRejE2
    (by decide)⟩

/-- C1: for an existing expense of an organization with at least one flow
step, the resolver computes the current step by the scan with candidate
initialized to 1 — a Pending record's step number is adopted and the scan
stops, an Approved record advances the candidate to its step number + 1,
and when the scan completes with candidate c the call returns "no further
action" exactly when c exceeds the configured step count; with zero records
the candidate is 1 and the call resolves step 1's approver. -/
theorem C1_resolver_scan (db : DB) (eid : String) (e : Expense)
    (hfe : findExpense db eid = some e)
    (hfs : companyFlowSteps db e.companyId ≠ []) :
    (∀ c, scanApprovals 1 (approvalsSorted db eid) = some c →
      (getNextApprover db eid = Except.ok none ↔
        (companyFlowSteps db e.companyId).length < c)) ∧
    (∀ (l₁ l₂ : List ExpenseApproval) (p : ExpenseApproval),
      approvalsSorted db eid = l₁ ++ p :: l₂ →
      (∀ a ∈ l₁, a.status = ExpenseStatus.Approved) →
      p.status = ExpenseStatus.Pending →
      scanApprovals 1 (approvalsSorted db eid) = some p.stepNumber) ∧
    (∀ (cand : Nat) (a : ExpenseApproval) (tail : List ExpenseApproval),
      a.status = ExpenseStatus.Approved →
      scanApprovals cand (a :: tail) = scanApprovals (a.stepNumber + 1) tail) ∧
    (approvalsSorted db eid = [] →
      scanApprovals 1 (approvalsSorted db eid) = some 1 ∧
      getNextApprover db eid =
        resolveApproverAtStep db e (companyFlowSteps db e.companyId) 1 ∧
      ∀ info, getNextApprover db eid = Except.ok (some info) → info.stepNumber = 1) := by
  have h0 : (companyFlowSteps db e.companyId).length ≠ 0 := by
    intro hz
    exact hfs (List.eq_nil_of_length_eq_zero hz)
  refine ⟨?_, ?_, ?_, ?_⟩
  · intro c hs
    rw [getNextApprover_ok_none_char db eid e hfe h0]
    constructor
    · intro hcase
      rcases hcase with hnone | ⟨c', hc', hlt'⟩
      · rw [hs] at hnone
        cases hnone
      · rw [hs] at hc'
        rw [Option.some.injEq] at hc'
        subst hc'
        exact hlt'
    · intro hlt
      exact Or.inr ⟨c, hs, hlt⟩
  · intro l₁ l₂ p hdec hall hp
    rw [hdec]
    exact scanApprovals_pending l₂ p hp l₁ hall 1
  · intro cand a tail ha
    simp [scanApprovals, ha]
  · intro hempty
    rw [hempty]
    refine ⟨rfl, ?_, ?_⟩
    · unfold getNextApprover
      rw [hfe]
      dsimp only
      rw [if_neg h0, hempty]
      dsimp only [scanApprovals]
      rw [if_neg (by omega)]
    · intro info hinfo
      obtain ⟨e', hfe', _, hscan, _, _⟩ := getNextApprover_ok_some db eid info hinfo
      rw [hempty] at hscan
      dsimp only [scanApprovals] at hscan
      rw [Option.some.injEq] at hscan
      exact hscan.symm

theorem C1_witness :
    findExpense db0 "e1" = some expense1 ∧
    companyFlowSteps db0 expense1.companyId ≠ [] ∧
    (approvalsSorted db0 "e1" = [] →
      scanApprovals 1 (approvalsSorted db0 "e1") = some 1 ∧
      getNextApprover db0 "e1" =
        resolveApproverAtStep db0 expense1 (companyFlowSteps db0 expense1.companyId) 1 ∧
      ∀ info, getNextApprover db0 "e1" = Except.ok (some info) → info.stepNumber = 1) :=
  ⟨by decide, by decide,
   (C1_resolver_scan db0 "e1" expense1 (by decide) (by decide)).2.2.2⟩

/-- C7 counterexample: with a step-1 Pending record ahead of a step-2
Rejected record, a Rejected record exists in the ledger but the resolver
stops at the Pending record and returns step 1's approver, not "no further
action". -/
theorem C7_counterexample :
    (∃ a ∈ approvalsSorted dbPendReject "e1", a.status = ExpenseStatus.Rejected) ∧
    getNextApprover dbPendReject "e1" = Except.ok (some infoStep1) ∧
    getNextApprover dbPendReject "e1" ≠ Except.ok none := by
  refine ⟨?_, by decide, by decide⟩
  decide

/-- C7 amended: once a Rejected record exists at some step and no Pending
record precedes it in the step-ordered ledger, the resolver returns "no
further action" regardless of what records exist at later step numbers —
the scan never proceeds past the rejected record. -/
theorem C7_rejected_terminal (db : DB) (eid : String) (e : Expense)
    (l₁ l₂ : List ExpenseApproval) (rej : ExpenseApproval)
    (hfe : findExpense db eid = some e)
    (hfs : companyFlowSteps db e.companyId ≠ [])
    (hdec : approvalsSorted db eid = l₁ ++ rej :: l₂)
    (hrej : rej.status = ExpenseStatus.Rejected)
    (hnp : ∀ a ∈ l₁, a.status ≠ ExpenseStatus.Pending) :
    getNextApprover db eid = Except.ok none := by
  have h0 : (companyFlowSteps db e.companyId).length ≠ 0 := by
    intro hz
    exact hfs (List.eq_nil_of_length_eq_zero hz)
  rw [getNextApprover_ok_none_char db eid e hfe h0]
  left
  rw [hdec]
  exact scanApprovals_rejected l₂ rej hrej l₁ hnp 1

theorem C7_witness :
    findExpense dbApprReject "e1" = some expense1 ∧
    companyFlowSteps dbApprReject expense1.companyId ≠ [] ∧
    approvalsSorted dbApprReject "e1" = [apprRecE1] ++ rejRec2E1 :: [] ∧
    rejRec2E1.status = ExpenseStatus.Rejected ∧
    (∀ a ∈ [apprRecE1], a.status ≠ ExpenseStatus.Pending) ∧
    getNextApprover dbApprReject "e1" = Except.ok none :=
  ⟨by decide, by decide, by decide, by decide, by decide,
   C7_rejected_terminal dbApprReject "e1" expense1 [apprRecE1] [] rejRec2E1
     (by decide) (by decide) (by decide) (by decide) (by decide)⟩

/-- C2: for every successful Approved decision on a Pending expense: under
the fast-track predicate the stored status becomes Approved exactly when the
decided step number reaches the organization's configured step count and
stays Pending otherwise; without fast-track it becomes Approved exactly when
the ledger after the write has as many records as configured steps, all
Approved, and stays Pending otherwise. -/
theorem C2_status_update (db db' : DB) (eid aid : String) (c : Option String)
    (r : DecisionResult) (e : Expense)
    (hok : processApprovalDecision db eid aid Decision.Approved c = (Except.ok r, db'))
    (hfe : findExpense db eid = some e)
    (hpend : e.status = ExpenseStatus.Pending) :
    ∃ info, getNextApprover db eid = Except.ok (some info) ∧
      (findExpense db' eid).map Expense.status = some r.expenseStatus ∧
      ((500 < e.companyCurrencyAmount ∨ info.approverRole = ApprovalRole.Finance) →
        ((r.expenseStatus = ExpenseStatus.Approved ↔
           countFlowSteps db e.companyId ≤ info.stepNumber) ∧
         (¬countFlowSteps db e.companyId ≤ info.stepNumber →
           r.expenseStatus = ExpenseStatus.Pending))) ∧
      (¬(500 < e.companyCurrencyAmount ∨ info.approverRole = ApprovalRole.Finance) →
        ((r.expenseStatus = ExpenseStatus.Approved ↔
           ((approvalsOf db' eid).length = countFlowSteps db e.companyId ∧
            ∀ a ∈ approvalsOf db' eid, a.status = ExpenseStatus.Approved)) ∧
         (¬((approvalsOf db' eid).length = countFlowSteps db e.companyId ∧
            ∀ a ∈ approvalsOf db' eid, a.status = ExpenseStatus.Approved) →
           r.expenseStatus = ExpenseStatus.Pending))) := by
  obtain ⟨e, info, up, allA, hup, hallA, hfe0, hga, hauth, happr, hflag, hcases⟩ :=
    process_ok_approved_shape db db' eid aid c r hok
  rw [hfe] at hfe0
  rw [Option.some.injEq] at hfe0
  subst hfe0
  subst hup
  subst hallA
  have hfe1 : findExpense
      (upsertApproval db (newApprovalRec eid aid info Decision.Approved c)).1 eid =
      some e := by
    unfold findExpense
    rw [upsertApproval_expenses]
    exact hfe
  refine ⟨info, hga, ?_, ?_, ?_⟩
  · rcases hcases with ⟨hst, hdb, _⟩ | ⟨hst, hdb, _⟩ <;> subst hdb
    · rw [findExpense_setExpenseStatus _ _ _ e hfe1]
      simp [hst]
    · rw [hfe1]
      simp [hst]
  · intro hftP
    have hft : shouldFastTrack e info.approverRole = true := by
      rw [shouldFastTrack]
      rcases hftP with h | h <;> simp [h]
    rcases hcases with ⟨hst, hdb, h2⟩ | ⟨hst, hdb, h2⟩
    · rcases h2 with ⟨_, hlast⟩ | ⟨hftF, _⟩
      · exact ⟨by rw [hst]; exact iff_of_true rfl hlast, fun hmid => absurd hlast hmid⟩
      · rw [hft] at hftF
        cases hftF
    · rcases h2 with ⟨_, hmid⟩ | ⟨hftF, _⟩
      · refine ⟨?_, fun _ => hst.trans hpend⟩
        rw [hst, hpend]
        constructor
        · intro hc
          cases hc
        · intro hc
          exact absurd hc hmid
      · rw [hft] at hftF
        cases hftF
  · intro hnP
    have hft : shouldFastTrack e info.approverRole = false := by
      rw [shouldFastTrack]
      simp only [Bool.or_eq_false_iff, decide_eq_false_iff_not]
      exact ⟨fun h => hnP (Or.inl h), fun h => hnP (Or.inr h)⟩
    rcases hcases with ⟨hst, hdb, h2⟩ | ⟨hst, hdb, h2⟩
    · rcases h2 with ⟨hftT, _⟩ | ⟨_, hallT⟩
      · rw [hft] at hftT
        cases hftT
      · subst hdb
        simp only [Bool.and_eq_true, beq_iff_eq, List.all_eq_true, beq_iff_eq] at hallT
        have hcond : (approvalsOf (setExpenseStatus (upsertApproval db
            (newApprovalRec eid aid info Decision.Approved c)).1 eid
              ExpenseStatus.Approved) eid).length = countFlowSteps db e.companyId ∧
            ∀ a ∈ approvalsOf (setExpenseStatus (upsertApproval db
              (newApprovalRec eid aid info Decision.Approved c)).1 eid
                ExpenseStatus.Approved) eid, a.status = ExpenseStatus.Approved :=
          ⟨hallT.1, hallT.2⟩
        exact ⟨by rw [hst]; exact iff_of_true rfl hcond, fun hc => absurd hcond hc⟩
    · rcases h2 with ⟨hftT, _⟩ | ⟨_, hallF⟩
      · rw [hft] at hftT
        cases hftT
      · subst hdb
        have hcond : ¬((approvalsOf (upsertApproval db
            (newApprovalRec eid aid info Decision.Approved c)).1 eid).length =
              countFlowSteps db e.companyId ∧
            ∀ a ∈ approvalsOf (upsertApproval db
              (newApprovalRec eid aid info Decision.Approved c)).1 eid,
              a.status = ExpenseStatus.Approved) := by
          intro hc
          rw [Bool.and_eq_false_iff] at hallF
          rcases hallF with hlen | hall
          · rw [beq_eq_false_iff_ne] at hlen
            exact hlen hc.1
          · simp only [List.all_eq_false, beq_eq_false_iff_ne] at hall
            obtain ⟨a, ha, hsa⟩ := hall
            exact hsa (by simpa using hc.2 a ha)
        refine ⟨?_, fun _ => hst.trans hpend⟩
        rw [hst, hpend]
        constructor
        · intro hc
          cases hc
        · intro hc
          exact absurd hc hcond

theorem C2_witness :
    processApprovalDecision db0 "e1" "mgr" Decision.Approved none =
      (Except.ok resApprE1, db0apprE1) ∧
    findExpense db0 "e1" = some expense1 ∧
    expense1.status = ExpenseStatus.Pending ∧
    (∃ info, getNextApprover db0 "e1" = Except.ok (some info) ∧
      (findExpense db0apprE1 "e1").map Expense.status = some resApprE1.expenseStatus ∧
      ((500 < expense1.companyCurrencyAmount ∨ info.approverRole = ApprovalRole.Finance) →
        ((resApprE1.expenseStatus = ExpenseStatus.Approved ↔
           countFlowSteps db0 expense1.companyId ≤ info.stepNumber) ∧
         (¬countFlowSteps db0 expense1.companyId ≤ info.stepNumber →
           resApprE1.expenseStatus = ExpenseStatus.Pending))) ∧
      (¬(500 < expense1.companyCurrencyAmount ∨ info.approverRole = ApprovalRole.Finance) →
        ((resApprE1.expenseStatus = ExpenseStatus.Approved ↔
           ((approvalsOf db0apprE1 "e1").length = countFlowSteps db0 expense1.companyId ∧
            ∀ a ∈ approvalsOf db0apprE1 "e1", a.status = ExpenseStatus.Approved)) ∧
         (¬((approvalsOf db0apprE1 "e1").length = countFlowSteps db0 expense1.companyId ∧
            ∀ a ∈ approvalsOf db0apprE1 "e1", a.status = ExpenseStatus.Approved) →
           resApprE1.expenseStatus = ExpenseStatus.Pending)))) :=
  ⟨by decide, by decide, by decide,
   C2_status_update db0 db0apprE1 "e1" "mgr" none resApprE1 expense1
     (by decide) (by decide) (by decide)⟩

theorem map_id_of_eq {α : Type} (l : List α) (f : α → α) (h : ∀ x ∈ l, f x = x) :
    l.map f = l := by
  induction l with
  | nil => rfl
  | cons a t ih =>
    rw [List.map_cons, h a (List.mem_cons_self a t),
      ih (fun x hx => h x (List.mem_cons_of_mem a hx))]

theorem map_set_status_id (l : List Expense) (e : Expense) (st : ExpenseStatus)
    (hN : (l.map Expense.id).Nodup) (hmem : e ∈ l) (hst : e.status = st) :
    l.map (fun x => if x.id == e.id then { x with status := st } else x) = l := by
  apply map_id_of_eq
  intro x hx
  by_cases hxid : (x.id == e.id) = true
  · have hxe : x = e := List.inj_on_of_nodup_map hN hx hmem (by simpa using hxid)
    subst hxe
    rw [if_pos hxid, ← hst]
  · rw [if_neg hxid]

theorem ExpenseInv_congr (db db' : DB) (x : Expense)
    (h1 : approvalsOf db' x.id = approvalsOf db x.id)
    (h2 : countFlowSteps db' x.companyId = countFlowSteps db x.companyId)
    (h : ExpenseInv db x) : ExpenseInv db' x := by
  unfold ExpenseInv at *
  rw [h1, h2]
  exact h

theorem DBInv_init (db : DB) (h : InitState db) : DBInv db := by
  obtain ⟨hN, hA, hP⟩ := h
  refine ⟨hN, fun e hmem => ?_⟩
  have hempty : approvalsOf db e.id = [] := by
    unfold approvalsOf
    rw [hA]
    rfl
  have hst := hP e hmem
  refine ⟨?_, ?_, ?_, ?_, ?_, ?_, ?_⟩
  · rw [hempty]
    rfl
  · rw [hempty]
    intro a ha
    cases ha
  · rw [hempty]
    intro a ha
    cases ha
  · rw [hempty, hst]
    constructor
    · intro hc
      cases hc
    · intro hc
      obtain ⟨a, ha, _⟩ := hc
      cases ha
  · rw [hst]
    intro hc
    cases hc
  · rw [hst]
    intro hc
    exact absurd rfl hc
  · rw [hempty]
    exact Nat.zero_le _

theorem inv_sorted_eq (db : DB) (e : Expense) (h : ExpenseInv db e) :
    approvalsSorted db e.id = approvalsOf db e.id :=
  approvalsSorted_eq_of_range' db e.id (approvalsOf db e.id).length h.1

theorem inv_all_approved (db : DB) (e : Expense) (h : ExpenseInv db e)
    (hne : e.status ≠ ExpenseStatus.Rejected) :
    ∀ a ∈ approvalsOf db e.id, a.status = ExpenseStatus.Approved := by
  intro a ha
  rcases hs : a.status with _ | _ | _
  · exact absurd hs (h.2.2.1 a ha)
  · rfl
  · exact absurd (h.2.2.2.1.mpr ⟨a, ha, hs⟩) hne

theorem inv_scan_not_rejected (db : DB) (e : Expense) (h : ExpenseInv db e)
    (hne : e.status ≠ ExpenseStatus.Rejected) :
    scanApprovals 1 (approvalsSorted db e.id) =
      some (1 + (approvalsOf db e.id).length) := by
  rw [inv_sorted_eq db e h]
  exact scanApprovals_all_approved (approvalsOf db e.id) 1
    (approvalsOf db e.id).length h.1 (inv_all_approved db e h hne)

theorem inv_scan_rejected (db : DB) (e : Expense) (h : ExpenseInv db e)
    (hst : e.status = ExpenseStatus.Rejected) :
    scanApprovals 1 (approvalsSorted db e.id) = none := by
  rw [inv_sorted_eq db e h]
  obtain ⟨rej, hrejmem, hrejst⟩ := h.2.2.2.1.mp hst
  obtain ⟨l₁, l₂, hdec⟩ := List.append_of_mem hrejmem
  rw [hdec]
  refine scanApprovals_rejected l₂ rej hrejst l₁ ?_ 1
  intro a ha
  refine h.2.2.1 a ?_
  rw [hdec]
  exact List.mem_append.mpr (Or.inl ha)

theorem getNextApprover_terminal (db : DB) (e : Expense)
    (hDB : DBInv db) (hmem : e ∈ db.expenses)
    (hterm : e.status ≠ ExpenseStatus.Pending) :
    getNextApprover db e.id = Except.ok none := by
  have hEI := hDB.2 e hmem
  have hfe : findExpense db e.id = some e := findExpense_of_mem db e hDB.1 hmem
  have hn : 1 ≤ countFlowSteps db e.companyId := hEI.2.2.2.2.2.1 hterm
  have h0 : (companyFlowSteps db e.companyId).length ≠ 0 := by
    rw [length_companyFlowSteps]
    omega
  rw [getNextApprover_ok_none_char db e.id e hfe h0]
  rcases hst : e.status with _ | _ | _
  · exact absurd hst hterm
  · right
    refine ⟨1 + (approvalsOf db e.id).length, inv_scan_not_rejected db e hEI ?_, ?_⟩
    · rw [hst]
      intro hc
      cases hc
    · have hkn := (hEI.2.2.2.2.1 hst).1
      rw [length_companyFlowSteps]
      omega
  · left
    exact inv_scan_rejected db e hEI hst

theorem getNextApprover_pending_step (db : DB) (e : Expense) (info : NextApproverInfo)
    (hDB : DBInv db) (hmem : e ∈ db.expenses)
    (hga : getNextApprover db e.id = Except.ok (some info)) :
    e.status = ExpenseStatus.Pending ∧
    info.stepNumber = (approvalsOf db e.id).length + 1 ∧
    (approvalsOf db e.id).length < countFlowSteps db e.companyId := by
  have hEI := hDB.2 e hmem
  rcases hst : e.status with _ | _ | _
  case Approved =>
    have hnone := getNextApprover_terminal db e hDB hmem
      (by rw [hst]; exact fun hc => nomatch hc)
    rw [hnone] at hga
    simp at hga
  case Rejected =>
    have hnone := getNextApprover_terminal db e hDB hmem
      (by rw [hst]; exact fun hc => nomatch hc)
    rw [hnone] at hga
    simp at hga
  obtain ⟨e', hfe', h0, hscan, hle', hres⟩ := getNextApprover_ok_some db e.id info hga
  have hfe : findExpense db e.id = some e := findExpense_of_mem db e hDB.1 hmem
  rw [hfe] at hfe'
  rw [Option.some.injEq] at hfe'
  subst hfe'
  have hscan2 : scanApprovals 1 (approvalsSorted db e.id) =
      some (1 + (approvalsOf db e.id).length) :=
    inv_scan_not_rejected db e hEI (by rw [hst]; intro hc; cases hc)
  rw [hscan2] at hscan
  rw [Option.some.injEq] at hscan
  rw [length_companyFlowSteps] at hle'
  refine ⟨rfl, by omega, by omega⟩

theorem DBInv_preserve_core (db db' : DB) (e : Expense) (rec : ExpenseApproval)
    (newStatus : ExpenseStatus)
    (hInv : DBInv db) (hmem : e ∈ db.expenses)
    (hid : rec.expenseId = e.id)
    (hstep : rec.stepNumber = (approvalsOf db e.id).length + 1)
    (hall : ∀ a ∈ approvalsOf db e.id, a.status = ExpenseStatus.Approved)
    (hle : (approvalsOf db e.id).length + 1 ≤ countFlowSteps db e.companyId)
    (hA : db'.approvals = db.approvals ++ [rec])
    (hF : db'.flowSteps = db.flowSteps)
    (hE : db'.expenses = db.expenses.map
      (fun x => if x.id == e.id then { x with status := newStatus } else x))
    (hcase : (newStatus = ExpenseStatus.Rejected ∧ rec.status = ExpenseStatus.Rejected) ∨
      (rec.status = ExpenseStatus.Approved ∧
        (newStatus = ExpenseStatus.Pending ∨
         (newStatus = ExpenseStatus.Approved ∧
           (approvalsOf db e.id).length + 1 = countFlowSteps db e.companyId)))) :
    DBInv db' := by
  have hcount : ∀ cid, countFlowSteps db' cid = countFlowSteps db cid := by
    intro cid
    unfold countFlowSteps
    rw [hF]
  have hrecne : rec.status ≠ ExpenseStatus.Pending := by
    rcases hcase with ⟨_, h⟩ | ⟨h, _⟩ <;> rw [h] <;> exact fun hc => nomatch hc
  have hapNew : approvalsOf db' e.id = approvalsOf db e.id ++ [rec] := by
    unfold approvalsOf
    rw [hA, List.filter_append]
    congr 1
    simp [hid]
  have hapOther : ∀ xid, xid ≠ e.id → approvalsOf db' xid = approvalsOf db xid := by
    intro xid hne
    unfold approvalsOf
    rw [hA, List.filter_append]
    have hdrop : (([rec] : List ExpenseApproval).filter
        (fun a => a.expenseId == xid)) = [] := by
      simp [hid]
      exact fun hc => hne hc.symm
    rw [hdrop, List.append_nil]
  constructor
  · rw [hE, List.map_map]
    have hcomp : (Expense.id ∘
        fun x => if x.id == e.id then { x with status := newStatus } else x) =
        Expense.id := by
      funext x
      by_cases hx : (x.id == e.id) = true
      · simp only [Function.comp_apply, if_pos hx]
      · simp only [Function.comp_apply, if_neg hx]
    rw [hcomp]
    exact hInv.1
  · intro e' hmem'
    rw [hE] at hmem'
    obtain ⟨x, hx, hfx⟩ := List.mem_map.mp hmem'
    by_cases hxid : (x.id == e.id) = true
    · have hxe : x = e := List.inj_on_of_nodup_map hInv.1 hx hmem (by simpa using hxid)
      subst hxe
      rw [if_pos hxid] at hfx
      subst hfx
      obtain ⟨hmap, hdrop, hnp, hrejIff, happS, hnpend, hk⟩ := hInv.2 x hx
      unfold ExpenseInv
      dsimp only
      rw [hapNew]
      refine ⟨?_, ?_, ?_, ?_, ?_, ?_, ?_⟩
      · rw [List.map_append, List.length_append, hmap]
        simp only [List.map_cons, List.map_nil, List.length_cons, List.length_nil]
        rw [hstep, List.range'_1_concat]
        rw [Nat.add_comm 1 (approvalsOf db x.id).length]
      · rw [List.dropLast_concat]
        exact hall
      · intro a ha
        rcases List.mem_append.mp ha with h | h
        · rw [hall a h]
          exact fun hc => nomatch hc
        · rw [List.mem_singleton.mp h]
          exact hrecne
      · rcases hcase with ⟨hns, hrec⟩ | ⟨hrecA, h2⟩
        · rw [hns]
          refine iff_of_true rfl ⟨rec, List.mem_append.mpr (Or.inr ?_), hrec⟩
          exact List.mem_singleton.mpr rfl
        · refine iff_of_false ?_ ?_
          · rcases h2 with hns | ⟨hns, _⟩ <;> rw [hns] <;> exact fun hc => nomatch hc
          · intro hc
            obtain ⟨a, ha, hstA⟩ := hc
            rcases List.mem_append.mp ha with h | h
            · rw [hall a h] at hstA
              cases hstA
            · rw [List.mem_singleton.mp h] at hstA
              rw [hrecA] at hstA
              cases hstA
      · intro hns
        rcases hcase with ⟨hnsR, _⟩ | ⟨hrecA, h2⟩
        · rw [hnsR] at hns
          cases hns
        · rcases h2 with hnsP | ⟨_, heq⟩
          · rw [hnsP] at hns
            cases hns
          · constructor
            · rw [List.length_append, hcount]
              simpa using heq
            · intro a ha
              rcases List.mem_append.mp ha with h | h
              · exact hall a h
              · rw [List.mem_singleton.mp h]
                exact hrecA
      · intro _
        rw [hcount]
        omega
      · rw [List.length_append, hcount]
        simp only [List.length_cons, List.length_nil]
        omega
    · rw [if_neg hxid] at hfx
      subst hfx
      have hne : x.id ≠ e.id := by simpa using hxid
      exact ExpenseInv_congr db db' x (hapOther x.id hne) (hcount x.companyId)
        (hInv.2 x hx)

theorem process_fresh_step (db : DB) (e : Expense) (info : NextApproverInfo)
    (hInv : DBInv db) (hmem : e ∈ db.expenses)
    (hstep : info.stepNumber = (approvalsOf db e.id).length + 1) :
    ∀ a ∈ db.approvals, ¬(a.expenseId = e.id ∧ a.stepNumber = info.stepNumber) := by
  intro a ha hcon
  have haf : a ∈ approvalsOf db e.id := by
    unfold approvalsOf
    rw [List.mem_filter]
    exact ⟨ha, by simpa using hcon.1⟩
  have hmemstep : a.stepNumber ∈ (approvalsOf db e.id).map (fun a => a.stepNumber) :=
    List.mem_map_of_mem _ haf
  rw [(hInv.2 e hmem).1] at hmemstep
  rcases List.mem_range'.mp hmemstep with ⟨i, hi, hv⟩
  have hs2 := hcon.2
  omega

theorem DBInv_step (db db' : DB) (eid aid : String) (d : Decision) (c : Option String)
    (r : DecisionResult) (hInv : DBInv db)
    (hok : processApprovalDecision db eid aid d c = (Except.ok r, db')) :
    DBInv db' := by
  cases d
  · obtain ⟨e, info, up, allA, hup, hallA, hfe, hga, hauth, happr, hflag, hcases⟩ :=
      process_ok_approved_shape db db' eid aid c r hok
    obtain ⟨hmem, hideq⟩ := findExpense_some db eid e hfe
    subst hideq
    obtain ⟨hpend, hstep, hlt⟩ := getNextApprover_pending_step db e info hInv hmem hga
    have hfresh := process_fresh_step db e info hInv hmem hstep
    have hcr := upsertApproval_create db (newApprovalRec e.id aid info Decision.Approved c)
      (by intro a ha hcon; exact hfresh a ha ⟨hcon.1, hcon.2⟩)
    subst hup
    have hall : ∀ a ∈ approvalsOf db e.id, a.status = ExpenseStatus.Approved :=
      inv_all_approved db e (hInv.2 e hmem) (by rw [hpend]; exact fun hc => nomatch hc)
    have hle : (approvalsOf db e.id).length + 1 ≤ countFlowSteps db e.companyId := by
      omega
    rcases hcases with ⟨hst, hdb, hcond⟩ | ⟨hst, hdb, hcond⟩
    · -- status set to Approved: needs full coverage k+1 = n
      have hkn : (approvalsOf db e.id).length + 1 = countFlowSteps db e.companyId := by
        rcases hcond with ⟨_, hlast⟩ | ⟨_, hallT⟩
        · omega
        · rw [hallA, hcr] at hallT
          simp only [Bool.and_eq_true, beq_iff_eq] at hallT
          have hlen := hallT.1
          have hap1 : approvalsOf
              ({ db with approvals := db.approvals ++
                [newApprovalRec e.id aid info Decision.Approved c] }, newApprovalRec e.id aid info Decision.Approved c).1 e.id =
              approvalsOf db e.id ++ [newApprovalRec e.id aid info Decision.Approved c] := by
            unfold approvalsOf
            dsimp only
            rw [List.filter_append]
            congr 1
            simp [newApprovalRec]
          rw [hap1, List.length_append] at hlen
          simpa using hlen
      subst hdb
      apply DBInv_preserve_core db _ e (newApprovalRec e.id aid info Decision.Approved c)
        ExpenseStatus.Approved hInv hmem rfl hstep hall hle
      · rw [setExpenseStatus_approvals, hcr]
      · show (setExpenseStatus _ _ _).flowSteps = db.flowSteps
        rw [hcr]
        rfl
      · show (setExpenseStatus _ _ _).expenses = _
        unfold setExpenseStatus
        dsimp only
        rw [hcr]
      · exact Or.inr ⟨rfl, Or.inr ⟨rfl, hkn⟩⟩
    · -- status left as it was (Pending)
      subst hdb
      apply DBInv_preserve_core db _ e (newApprovalRec e.id aid info Decision.Approved c)
        ExpenseStatus.Pending hInv hmem rfl hstep hall hle
      · rw [hcr]
      · rw [hcr]
      · rw [hcr]
        dsimp only
        exact (map_set_status_id db.expenses e ExpenseStatus.Pending hInv.1 hmem hpend).symm
      · exact Or.inr ⟨rfl, Or.inl rfl⟩
  · obtain ⟨e, info, up, hup, hfe, hga, hauth, happr, hflag, hst, hdb⟩ :=
      process_ok_rejected_shape db db' eid aid c r hok
    obtain ⟨hmem, hideq⟩ := findExpense_some db eid e hfe
    subst hideq
    obtain ⟨hpend, hstep, hlt⟩ := getNextApprover_pending_step db e info hInv hmem hga
    have hfresh := process_fresh_step db e info hInv hmem hstep
    have hcr := upsertApproval_create db (newApprovalRec e.id aid info Decision.Rejected c)
      (by intro a ha hcon; exact hfresh a ha ⟨hcon.1, hcon.2⟩)
    subst hup
    have hall : ∀ a ∈ approvalsOf db e.id, a.status = ExpenseStatus.Approved :=
      inv_all_approved db e (hInv.2 e hmem) (by rw [hpend]; exact fun hc => nomatch hc)
    have hle : (approvalsOf db e.id).length + 1 ≤ countFlowSteps db e.companyId := by
      omega
    subst hdb
    apply DBInv_preserve_core db _ e (newApprovalRec e.id aid info Decision.Rejected c)
      ExpenseStatus.Rejected hInv hmem rfl hstep hall hle
    · rw [setExpenseStatus_approvals, hcr]
    · show (setExpenseStatus _ _ _).flowSteps = db.flowSteps
      rw [hcr]
      rfl
    · show (setExpenseStatus _ _ _).expenses = _
      unfold setExpenseStatus
      dsimp only
      rw [hcr]
    · exact Or.inl ⟨rfl, rfl⟩

theorem Reachable_DBInv (db : DB) (h : Reachable db) : DBInv db := by
  induction h with
  | init db hinit => exact DBInv_init db hinit
  | step db db' eid aid d c r _ hok ih => exact DBInv_step db db' eid aid d c r ih hok

theorem applyDecision_snd_approvals (db : DB) (e : Expense) (info : NextApproverInfo)
    (eid aid : String) (d : Decision) (c : Option String) :
    (applyDecision db e info eid aid d c).2.approvals =
      (upsertApproval db (newApprovalRec eid aid info d c)).1.approvals := by
  unfold applyDecision
  cases d <;> dsimp only
  · split
    · split <;> rfl
    · split <;> rfl
  · rfl

/-- C4: Pending is the sole initial state and Approved / Rejected are
terminal: on every reachable store, an expense whose status is Approved or
Rejected makes the resolver signal "no further action", and every subsequent
recordDecision call on it fails with the "nothing pending" ValidationError
and returns the store unchanged — nothing moves an expense out of a
terminal state. -/
theorem C4_terminal_states (db : DB) (e : Expense) (aid : String) (d : Decision)
    (c : Option String)
    (hr : Reachable db) (hmem : e ∈ db.expenses)
    (hterm : e.status = ExpenseStatus.Approved ∨ e.status = ExpenseStatus.Rejected) :
    getNextApprover db e.id = Except.ok none ∧
    processApprovalDecision db e.id aid d c = (Except.error Err.noPendingApproval, db) ∧
    Err.kind Err.noPendingApproval = ErrKind.validationError := by
  have hInv := Reachable_DBInv db hr
  have hne : e.status ≠ ExpenseStatus.Pending := by
    rcases hterm with h | h <;> rw [h] <;> exact fun hc => nomatch hc
  have hga := getNextApprover_terminal db e hInv hmem hne
  refine ⟨hga, ?_, rfl⟩
  have hfe : findExpense db e.id = some e := findExpense_of_mem db e hInv.1 hmem
  unfold processApprovalDecision
  rw [hfe]
  dsimp only
  rw [hga]

theorem C4_witness :
    Reachable db0rejE2 ∧
    ({ expense2 with status := ExpenseStatus.Rejected } : Expense) ∈ db0rejE2.expenses ∧
    (({ expense2 with status := ExpenseStatus.Rejected } : Expense).status =
        ExpenseStatus.Approved ∨
     ({ expense2 with status := ExpenseStatus.Rejected } : Expense).status =
        ExpenseStatus.Rejected) ∧
    (getNextApprover db0rejE2 "e2" = Except.ok none ∧
     processApprovalDecision db0rejE2 "e2" "fin" Decision.Approved none =
       (Except.error Err.noPendingApproval, db0rejE2) ∧
     Err.kind Err.noPendingApproval = ErrKind.validationError) := by
  have hinit : InitState db0 := ⟨by decide, rfl, by decide⟩
  have hstep : processApprovalDecision db0 "e2" "mgr" Decision.Rejected none =
      (Except.ok resRejE2, db0rejE2) := by decide
  have hreach : Reachable db0rejE2 :=
    Reachable.step db0 db0rejE2 "e2" "mgr" Decision.Rejected none resRejE2
      (Reachable.init db0 hinit) hstep
  exact ⟨hreach, by decide, Or.inr rfl,
    C4_terminal_states db0rejE2 { expense2 with status := ExpenseStatus.Rejected }
      "fin" Decision.Approved none hreach (by decide) (Or.inr rfl)⟩

/-- C10: on every store reachable through the processor from an empty ledger,
each expense's records occupy consecutive step numbers 1..k in storage order,
every record except possibly the last is Approved, and no record is ever
Pending (the processor writes only Approved or Rejected, so the resolver's
Pending branch is unreachable); and every successful call appends one new
record for the decided expense at a previously undecided step instead of
overwriting an existing record. -/
theorem C10_ledger_invariant (db : DB) (hr : Reachable db) :
    (∀ e ∈ db.expenses,
      (approvalsOf db e.id).map (fun a => a.stepNumber) =
        List.range' 1 (approvalsOf db e.id).length ∧
      (∀ a ∈ (approvalsOf db e.id).dropLast, a.status = ExpenseStatus.Approved) ∧
      (∀ a ∈ approvalsOf db e.id, a.status ≠ ExpenseStatus.Pending)) ∧
    (∀ (eid aid : String) (d : Decision) (c : Option String) (r : DecisionResult)
        (db' : DB),
      processApprovalDecision db eid aid d c = (Except.ok r, db') →
      ∃ rec, db'.approvals = db.approvals ++ [rec] ∧ rec.expenseId = eid ∧
        rec.status = decidedStatus d ∧ rec.status ≠ ExpenseStatus.Pending ∧
        ∀ a ∈ db.approvals, a.expenseId = eid → a.stepNumber ≠ rec.stepNumber) := by
  have hInv := Reachable_DBInv db hr
  constructor
  · intro e hmem
    obtain ⟨h1, h2, h3, _⟩ := hInv.2 e hmem
    exact ⟨h1, h2, h3⟩
  · intro eid aid d c r db' hok
    obtain ⟨e, info, hfe, hga, hauth, happ⟩ := process_ok_inv db db' eid aid d c r hok
    obtain ⟨hmem, hideq⟩ := findExpense_some db eid e hfe
    subst hideq
    obtain ⟨hpend, hstep, hlt⟩ := getNextApprover_pending_step db e info hInv hmem hga
    have hfresh := process_fresh_step db e info hInv hmem hstep
    refine ⟨newApprovalRec e.id aid info d c, ?_, rfl, rfl, ?_, ?_⟩
    · have hcr := upsertApproval_create db (newApprovalRec e.id aid info d c)
        (by intro a ha hcon; exact hfresh a ha ⟨hcon.1, hcon.2⟩)
      have hdb' : db' = (applyDecision db e info e.id aid d c).2 := by
        rw [happ]
      rw [hdb', applyDecision_snd_approvals, hcr]
    · cases d <;> exact fun hc => nomatch hc
    · intro a ha heq hsteq
      exact hfresh a ha ⟨heq, hsteq⟩

theorem C10_witness :
    Reachable db0rejE2 ∧
    (∀ e ∈ db0rejE2.expenses,
      (approvalsOf db0rejE2 e.id).map (fun a => a.stepNumber) =
        List.range' 1 (approvalsOf db0rejE2 e.id).length ∧
      (∀ a ∈ (approvalsOf db0rejE2 e.id).dropLast, a.status = ExpenseStatus.Approved) ∧
      (∀ a ∈ approvalsOf db0rejE2 e.id, a.status ≠ ExpenseStatus.Pending)) := by
  have hinit : InitState db0 := ⟨by decide, rfl, by decide⟩
  have hstep : processApprovalDecision db0 "e2" "mgr" Decision.Rejected none =
      (Except.ok resRejE2, db0rejE2) := by decide
  have hreach : Reachable db0rejE2 :=
    Reachable.step db0 db0rejE2 "e2" "mgr" Decision.Rejected none resRejE2
      (Reachable.init db0 hinit) hstep
  exact ⟨hreach, (C10_ledger_invariant db0rejE2 hreach).1⟩

end EM
